import Mathlib

/-!
Verification development for the `rout` Go library (github.com/mitranim/rout):
an HTTP request router with three/four pattern-matching styles (exact, prefix,
OAS-style template, regexp) and a panic-based short-circuiting routing protocol.

Strings are embedded as lists of characters (`Str`); Go byte indices produced
by `range` over a string coincide with positions in this model (splits only
happen at rune boundaries, and all separator characters are ASCII).

Sources embedded here: `rout_rou.go` (router `Rou` and evaluation protocol),
`rout_misc.go` (`Match` styles and dispatch), `rout_err.go` (error values),
the `Pat` template engine (`Pat.Parse`, `Pat.match`, `Pat.Reg` etc.), and the
small helpers they use. Helpers whose defining file is not part of the
source snapshot (`matchSta`, `subs`, `errStatusDeep`) are modelled from the
spec, as marked in their doc comments.
-/

/-- Strings as lists of characters. -/
abbrev Str := List Char

/-- Convert a Lean string literal to the `Str` model. -/
def str (s : String) : Str := s.data

/-- The left-brace character, written via its code point. -/
def lbrace : Char := Char.ofNat 123

/-- The right-brace character, written via its code point. -/
def rbrace : Char := Char.ofNat 125

/-- True if the character is one of the template separators `/`, `?`, `#`
(the characters a template expression does not consume, compare the regexp
class in `segmentPattern`). -/
def isSep (c : Char) : Bool := c = '/' || c = '?' || c = '#'

/-- A string without separator characters. -/
def sepFree (s : Str) : Prop := ∀ c ∈ s, isSep c = false

instance (s : Str) : Decidable (sepFree s) := by
  unfold sepFree; infer_instance

/-- True if the string starts with a separator character. -/
def headIsSep : Str → Bool
  | [] => false
  | c :: _ => isSep c

/-- `hasPre pat inp` is `strings.HasPrefix(inp, pat)`: the first argument is a
prefix of the second. -/
def hasPre : Str → Str → Bool
  | [], _ => true
  | _ :: _, [] => false
  | p :: ps, c :: cs => p = c && hasPre ps cs

/-- The capture-group ceiling of the `Pat` engine (`subsCap` in the source;
the `subs` buffer holds at most 8 captures). -/
def subsCap : Nat := 8

/-- Modelled from the spec: the `subs` accumulator's `add` (the `subs` type is
not in the source snapshot; only its use in `Pat.match` is). Per the spec, a
capture "must consume at least one character — zero-length captures are a
non-match", and the engine "allows only up to 8 capture groups"; so `add`
fails on an empty capture or when the buffer already holds `subsCap` items. -/
def subsAdd (subs : List Str) (val : Str) : Option (List Str) :=
  if val = [] then none
  else if subsCap ≤ subs.length then none
  else some (subs ++ [val])

/-- The inner scan of `Pat.match` for a template segment: `for ind, char =
range rem` stops at the first `/`, `?` or `#`; the captured part is
`strPop(&rem, ind)` (everything before the separator, the separator stays in
the remainder), or the whole remainder when no separator occurs. Returns
(captured part, remainder). -/
def takeUntilSep : Str → Str × Str
  | [] => ([], [])
  | c :: rest =>
    if isSep c then ([], c :: rest)
    else
      let p := takeUntilSep rest
      (c :: p.1, p.2)

/-- A parsed OAS-style pattern (`type Pat []string`): a list of segments where
the empty string is a capture marker ("template expression") and a non-empty
string is a literal matched verbatim. -/
abbrev Pat := List Str

/-- The core matcher `Pat.match` from the source: walk the segments, a
non-empty segment must be a prefix of the remainder and is consumed; an empty
segment captures up to the next separator (or the whole remainder), where
`subs.add` rejects empty captures and more than `subsCap` captures; finally
the remainder must be exhausted. Returns the captures on success. -/
def Pat.matchCore : Pat → Str → List Str → Option (List Str)
  | [], rem, subs => if rem = [] then some subs else none
  | seg :: segs, rem, subs =>
    if seg = [] then
      let p := takeUntilSep rem
      match subsAdd subs p.1 with
      | none => none
      | some subs2 => Pat.matchCore segs p.2 subs2
    else
      if hasPre seg rem then Pat.matchCore segs (rem.drop seg.length) subs
      else none

/-- `Pat.Match`: true if the input matches the pattern (source: `self.match(inp, nil)`). -/
def Pat.Match (p : Pat) (inp : Str) : Bool := (Pat.matchCore p inp []).isSome

/-- `Pat.Submatch`: positional captures on success, `none` (Go `nil`) otherwise. -/
def Pat.Submatch (p : Pat) (inp : Str) : Option (List Str) := Pat.matchCore p inp []

/-- `Pat.Num`: the number of capture groups, counting empty segments. -/
def Pat.Num (p : Pat) : Nat := p.countP (fun seg => seg.isEmpty)

/-- The regexp text of a capture marker in `Pat.Reg` (`segmentPattern` in the
source): one-or-more characters none of which is `/`, `?` or `#`. -/
def segmentPattern : Str := str "([^/?#]+)"

/-- The characters escaped by Go's `regexp.QuoteMeta`. -/
def regexpSpecial : Str := str "\\.+*?()|[]\x7b\x7d^$"

/-- Go's `regexp.QuoteMeta`: prefix every special character with a backslash. -/
def quoteMeta (s : Str) : Str :=
  (s.map (fun c => if c ∈ regexpSpecial then ['\\', c] else [c])).flatten

/-- `Pat.Reg`: the equivalent anchored regexp source text: `^`, then each
literal segment escaped with `quoteMeta` and each capture marker rendered as
`segmentPattern`, then `$`. -/
def Pat.Reg (p : Pat) : Str :=
  str "^" ++ (p.map (fun seg => if seg = [] then segmentPattern else quoteMeta seg)).flatten
    ++ str "$"

/-- Parse errors of `Pat.Parse`. Each error identifies the offending pattern
(the full source string) and the reason, mirroring the `fmt.Errorf` messages
in the source (`[rout] invalid OAS-style pattern %q: ...`). -/
inductive PatParseErr where
  /-- "unexpected %q" for `?` or `#` anywhere in the pattern. -/
  | unexpectedChar (src : Str) (char : Char)
  /-- "unexpected %q in the middle of a template expression" for `/`. -/
  | slashInTemplate (src : Str)
  /-- "found %v template expressions which exceeds limit %v". -/
  | tooMany (src : Str) (count : Nat)
  /-- "unexpected %q outside of template expression" for a stray `}`. -/
  | unexpectedClose (src : Str)
  /-- "unclosed template expression". -/
  | unclosed (src : Str)
deriving DecidableEq

/-- The character loop of `Pat.Parse`. The source walks `src` with a `cursor`
into the string and slices `src[cursor:ind]` at segment boundaries; here the
pending literal chunk since the cursor is carried directly as `pend`.
State: remaining characters, `template` flag, pending literal, count of
closed template expressions, segments built so far. -/
def patParseGo (src : Str) : Str → Bool → Str → Nat → Pat → Except PatParseErr Pat
  | [], template, pend, _, buf =>
    if template then .error (.unclosed src)
    else .ok (buf ++ if pend = [] then [] else [pend])
  | c :: rest, template, pend, templates, buf =>
    if c = '?' ∨ c = '#' then .error (.unexpectedChar src c)
    else if template then
      if c = rbrace then
        if subsCap < templates + 1 then .error (.tooMany src (templates + 1))
        else patParseGo src rest false [] (templates + 1) (buf ++ [[]])
      else if c = '/' then .error (.slashInTemplate src)
      else patParseGo src rest true pend templates buf
    else
      if c = lbrace then
        patParseGo src rest true [] templates (buf ++ if pend = [] then [] else [pend])
      else if c = rbrace then .error (.unexpectedClose src)
      else patParseGo src rest false (pend ++ [c]) templates buf

/-- `Pat.Parse` on an empty receiver: parse the source string into a fresh
pattern (the source appends to the receiver; we model the common
`new(Pat).Parse(src)` case with an empty receiver). -/
def Pat.Parse (src : Str) : Except PatParseErr Pat :=
  patParseGo src src false [] 0 []

deriving instance DecidableEq for Except

/-- A well-formed source string for `Pat.Parse`, described segment-wise: a
literal chunk, or a template expression rendered with braces around a name. -/
inductive SrcSeg where
  | lit (s : Str)
  | tpl (name : Str)
deriving DecidableEq

/-- Render one source segment: a literal verbatim, a template as
`{name}` (braces around the discarded name). -/
def renderSeg : SrcSeg → Str
  | .lit s => s
  | .tpl name => lbrace :: (name ++ [rbrace])

/-- Render a whole source string from its segments. -/
def renderSrc (segs : List SrcSeg) : Str := (segs.map renderSeg).flatten

/-- A literal chunk contains none of the characters that `Pat.Parse` treats
specially outside a template expression. -/
def litOkB (s : Str) : Bool :=
  s.all fun c => !(c = lbrace || c = rbrace || c = '?' || c = '#')

/-- A template name contains none of the characters that `Pat.Parse` treats
specially inside a template expression (`{` is allowed there: the source
skips it). -/
def tplOkB (s : Str) : Bool :=
  s.all fun c => !(c = rbrace || c = '/' || c = '?' || c = '#')

/-- All segments of a rendered source are well-formed. -/
def wfSrcB (segs : List SrcSeg) : Bool :=
  segs.all fun sg => match sg with
    | .lit s => litOkB s
    | .tpl name => tplOkB name

/-- The number of template expressions in a rendered source. -/
def tplCount (segs : List SrcSeg) : Nat :=
  segs.countP fun sg => match sg with
    | .lit _ => false
    | .tpl _ => true

theorem patParseGo_cons_other (src rest pend : Str) (t : Nat) (b : Pat) (c : Char)
    (h1 : ¬(c = '?')) (h2 : ¬(c = '#')) (h3 : ¬(c = lbrace)) (h4 : ¬(c = rbrace)) :
    patParseGo src (c :: rest) false pend t b
      = patParseGo src rest false (pend ++ [c]) t b := by
  simp only [patParseGo]
  rw [if_neg (by tauto), if_neg (by decide), if_neg h3, if_neg h4]

theorem patParseGo_cons_open (src rest pend : Str) (t : Nat) (b : Pat) :
    patParseGo src (lbrace :: rest) false pend t b
      = patParseGo src rest true [] t (b ++ if pend = [] then [] else [pend]) := by
  simp only [patParseGo]
  rw [if_neg (by decide), if_neg (by decide)]
  simp

theorem patParseGo_cons_close (src rest pend : Str) (t : Nat) (b : Pat) :
    patParseGo src (rbrace :: rest) true pend t b
      = if subsCap < t + 1 then .error (.tooMany src (t + 1))
        else patParseGo src rest false [] (t + 1) (b ++ [[]]) := by
  simp only [patParseGo]
  rw [if_neg (by decide), if_pos (by decide)]
  simp

theorem patParseGo_cons_skip (src rest pend : Str) (t : Nat) (b : Pat) (c : Char)
    (h1 : ¬(c = '?')) (h2 : ¬(c = '#')) (h3 : ¬(c = rbrace)) (h4 : ¬(c = '/')) :
    patParseGo src (c :: rest) true pend t b = patParseGo src rest true pend t b := by
  simp only [patParseGo]
  rw [if_neg (by tauto), if_pos (by decide), if_neg h3, if_neg h4]

theorem litOkB_cons {c : Char} {cs : Str} (h : litOkB (c :: cs) = true) :
    (¬(c = lbrace) ∧ ¬(c = rbrace) ∧ ¬(c = '?') ∧ ¬(c = '#')) ∧ litOkB cs = true := by
  simp only [litOkB, List.all_cons, Bool.and_eq_true, Bool.not_eq_true',
    Bool.or_eq_false_iff, decide_eq_false_iff_not] at h
  obtain ⟨⟨⟨⟨hb1, hb2⟩, hq⟩, hh⟩, hrest⟩ := h
  exact ⟨⟨hb1, hb2, hq, hh⟩, hrest⟩

theorem tplOkB_cons {c : Char} {cs : Str} (h : tplOkB (c :: cs) = true) :
    (¬(c = rbrace) ∧ ¬(c = '/') ∧ ¬(c = '?') ∧ ¬(c = '#')) ∧ tplOkB cs = true := by
  simp only [tplOkB, List.all_cons, Bool.and_eq_true, Bool.not_eq_true',
    Bool.or_eq_false_iff, decide_eq_false_iff_not] at h
  obtain ⟨⟨⟨⟨hb1, hb2⟩, hq⟩, hh⟩, hrest⟩ := h
  exact ⟨⟨hb1, hb2, hq, hh⟩, hrest⟩

theorem patParseGo_lit (src : Str) (s : Str) (h : litOkB s = true) :
    ∀ (k pend : Str) (t : Nat) (b : Pat),
      patParseGo src (s ++ k) false pend t b = patParseGo src k false (pend ++ s) t b := by
  induction s with
  | nil => intro k pend t b; simp
  | cons c cs ih =>
    intro k pend t b
    obtain ⟨⟨hb1, hb2, hq, hh⟩, hcs⟩ := litOkB_cons h
    rw [List.cons_append, patParseGo_cons_other src (cs ++ k) pend t b c hq hh hb1 hb2,
      ih hcs k (pend ++ [c]) t b]
    simp

theorem patParseGo_tplBody (src : Str) (name : Str) (h : tplOkB name = true) :
    ∀ (k pend : Str) (t : Nat) (b : Pat),
      patParseGo src (name ++ rbrace :: k) true pend t b =
        if subsCap < t + 1 then .error (.tooMany src (t + 1))
        else patParseGo src k false [] (t + 1) (b ++ [[]]) := by
  induction name with
  | nil =>
    intro k pend t b
    rw [List.nil_append, patParseGo_cons_close]
  | cons c cs ih =>
    intro k pend t b
    obtain ⟨⟨hb2, hsl, hq, hh⟩, hcs⟩ := tplOkB_cons h
    rw [List.cons_append, patParseGo_cons_skip src (cs ++ rbrace :: k) pend t b c hq hh hb2 hsl]
    exact ih hcs k pend t b

theorem patParseGo_tpl (src : Str) (name : Str) (h : tplOkB name = true)
    (k pend : Str) (t : Nat) (b : Pat) :
    patParseGo src (renderSeg (.tpl name) ++ k) false pend t b =
      if subsCap < t + 1 then .error (.tooMany src (t + 1))
      else patParseGo src k false [] (t + 1)
        ((b ++ if pend = [] then [] else [pend]) ++ [[]]) := by
  show patParseGo src ((lbrace :: (name ++ [rbrace])) ++ k) false pend t b = _
  rw [List.cons_append, patParseGo_cons_open]
  rw [List.append_assoc, List.singleton_append]
  exact patParseGo_tplBody src name h k _ t _

theorem patParseGo_render (src : Str) (segs : List SrcSeg) (h : wfSrcB segs = true) :
    ∀ (pend : Str) (t : Nat) (b : Pat), t ≤ subsCap →
      (t + tplCount segs ≤ subsCap →
        ∃ p, patParseGo src (renderSrc segs) false pend t b = .ok p)
      ∧ (subsCap < t + tplCount segs →
        patParseGo src (renderSrc segs) false pend t b
          = .error (.tooMany src (subsCap + 1))) := by
  induction segs with
  | nil =>
    intro pend t b ht
    refine ⟨fun _ => ⟨b ++ if pend = [] then [] else [pend], ?_⟩, fun hgt => ?_⟩
    · simp [renderSrc, patParseGo]
    · exfalso; simp [tplCount] at hgt; omega
  | cons sg rest ih =>
    intro pend t b ht
    simp only [wfSrcB, List.all_cons, Bool.and_eq_true] at h
    obtain ⟨hsg, hrest⟩ := h
    have hrest2 : wfSrcB rest = true := hrest
    match sg with
    | .lit s =>
      have hren : renderSrc (.lit s :: rest) = s ++ renderSrc rest := by
        simp [renderSrc, renderSeg]
      have hcnt : tplCount (.lit s :: rest) = tplCount rest := by
        simp [tplCount]
      rw [hren, hcnt, patParseGo_lit src s hsg]
      exact ih hrest2 (pend ++ s) t b ht
    | .tpl name =>
      have hren : renderSrc (.tpl name :: rest) = renderSeg (.tpl name) ++ renderSrc rest := by
        simp [renderSrc]
      have hcnt : tplCount (.tpl name :: rest) = tplCount rest + 1 := by
        simp [tplCount, Nat.add_comm]
      rw [hren, hcnt, patParseGo_tpl src name hsg]
      by_cases hlim : subsCap < t + 1
      · have ht8 : t = subsCap := by omega
        rw [if_pos hlim]
        refine ⟨fun hle => absurd hle (by omega), fun _ => by rw [ht8]⟩
      · rw [if_neg hlim]
        have hrec := ih hrest2 [] (t + 1)
          ((b ++ if pend = [] then [] else [pend]) ++ [[]]) (by omega)
        exact ⟨fun hle => hrec.1 (by omega), fun hgt => hrec.2 (by omega)⟩

theorem patNum_append (a b : Pat) : Pat.Num (a ++ b) = Pat.Num a + Pat.Num b := by
  simp [Pat.Num, List.countP_append]

theorem patParseGo_num_le (src : Str) :
    ∀ (rem : Str) (template : Bool) (pend : Str) (t : Nat) (b : Pat) (p : Pat),
      t ≤ subsCap → Pat.Num b = t →
      patParseGo src rem template pend t b = .ok p → Pat.Num p ≤ subsCap := by
  intro rem
  induction rem with
  | nil =>
    intro template pend t b p ht hnum hok
    simp only [patParseGo] at hok
    split at hok
    · exact absurd hok (by simp)
    · have : p = b ++ if pend = [] then [] else [pend] := by
        simpa using hok.symm
      subst this
      rw [patNum_append, hnum]
      split
      · simp [Pat.Num]; omega
      · rename_i hne
        have : Pat.Num [pend] = 0 := by
          simp [Pat.Num, List.countP_cons, List.isEmpty_iff, hne]
        omega
  | cons c cs ih =>
    intro template pend t b p ht hnum hok
    simp only [patParseGo] at hok
    split at hok
    · exact absurd hok (by simp)
    · split at hok
      · -- in template
        split at hok
        · -- closing brace
          split at hok
          · exact absurd hok (by simp)
          · rename_i hcap
            exact ih false [] (t + 1) (b ++ [[]]) p (by omega)
              (by rw [patNum_append, hnum]; simp [Pat.Num]) hok
        · split at hok
          · exact absurd hok (by simp)
          · exact ih true pend t b p ht hnum hok
      · -- not in template
        split at hok
        · -- opening brace
          refine ih true [] t (b ++ if pend = [] then [] else [pend]) p ht ?_ hok
          rw [patNum_append, hnum]
          split
          · simp [Pat.Num]
          · rename_i hne
            have : Pat.Num [pend] = 0 := by
              simp [Pat.Num, List.countP_cons, List.isEmpty_iff, hne]
            omega
        · split at hok
          · exact absurd hok (by simp)
          · exact ih false (pend ++ [c]) t b p ht hnum hok

/-- Claim C7: `Pat.Parse` fails with a descriptive error (identifying the
offending pattern) for every well-formed source string containing more than
8 template expressions, succeeds for every otherwise well-formed source with
exactly 8 template expressions, and more generally a successfully parsed
pattern never has more than 8 capture groups. -/
theorem claim_c7_capture_ceiling (segs : List SrcSeg) (h : wfSrcB segs = true) :
    (subsCap < tplCount segs →
      Pat.Parse (renderSrc segs)
        = .error (.tooMany (renderSrc segs) (subsCap + 1)))
    ∧ (tplCount segs = subsCap →
      ∃ p, Pat.Parse (renderSrc segs) = .ok p)
    ∧ (∀ (src : Str) (p : Pat), Pat.Parse src = .ok p → Pat.Num p ≤ subsCap) := by
  have hmain := patParseGo_render (renderSrc segs) segs h [] 0 [] (by decide)
  refine ⟨fun hgt => hmain.2 (by omega), fun heq => hmain.1 (by omega),
    fun src p hok => ?_⟩
  exact patParseGo_num_le src src false [] 0 [] p (by decide) (by simp [Pat.Num]) hok

/-- Witness for claim C7 at concrete inputs: a source of nine `{}` template
expressions fails with the capture-ceiling error, a source of eight parses. -/
theorem claim_c7_capture_ceiling_witness :
    Pat.Parse (renderSrc (List.replicate 9 (.tpl [])))
      = .error (.tooMany (renderSrc (List.replicate 9 (.tpl []))) 9)
    ∧ ∃ p, Pat.Parse (renderSrc (List.replicate 8 (.tpl []))) = .ok p := by
  exact ⟨(claim_c7_capture_ceiling (List.replicate 9 (.tpl [])) (by decide)).1 (by decide),
    (claim_c7_capture_ceiling (List.replicate 8 (.tpl [])) (by decide)).2.1 (by decide)⟩

theorem takeUntilSep_append_sepFree (v : Str) (hv : sepFree v) (s : Str) :
    takeUntilSep (v ++ s) = (v ++ (takeUntilSep s).1, (takeUntilSep s).2) := by
  induction v with
  | nil => simp
  | cons c cs ih =>
    have hc : isSep c = false := hv c (by simp)
    have hcs : sepFree cs := fun x hx => hv x (by simp [hx])
    simp only [List.cons_append, takeUntilSep, hc, Bool.false_eq_true, if_false,
      List.append_eq, ih hcs]

theorem takeUntilSep_headSep (s : Str) (h : headIsSep s = true) :
    takeUntilSep s = ([], s) := by
  match s with
  | [] => simp [headIsSep] at h
  | c :: rest =>
    have : isSep c = true := h
    simp [takeUntilSep, this]

theorem takeUntilSep_split (s : Str) :
    (takeUntilSep s).1 ++ (takeUntilSep s).2 = s
    ∧ sepFree (takeUntilSep s).1
    ∧ ((takeUntilSep s).2 = [] ∨ headIsSep (takeUntilSep s).2 = true) := by
  induction s with
  | nil => exact ⟨rfl, fun c hc => by simp [takeUntilSep] at hc, Or.inl rfl⟩
  | cons c rest ih =>
    by_cases hc : isSep c = true
    · refine ⟨by simp [takeUntilSep, hc], ?_, ?_⟩
      · intro x hx
        simp [takeUntilSep, hc] at hx
      · right
        simp [takeUntilSep, hc, headIsSep]
    · have hc2 : isSep c = false := by simpa using hc
      obtain ⟨h1, h2, h3⟩ := ih
      refine ⟨?_, ?_, ?_⟩
      · simp [takeUntilSep, hc2, h1]
      · intro x hx
        simp only [takeUntilSep, hc2, Bool.false_eq_true, if_false, List.mem_cons] at hx
        rcases hx with hx | hx
        · subst hx; exact hc2
        · exact h2 x hx
      · simpa [takeUntilSep, hc2] using h3

theorem hasPre_append (p r : Str) : hasPre p (p ++ r) = true := by
  induction p with
  | nil => rfl
  | cons c cs ih => simp [hasPre, ih]

theorem hasPre_exists (p s : Str) (h : hasPre p s = true) : ∃ r, s = p ++ r := by
  induction p generalizing s with
  | nil => exact ⟨s, rfl⟩
  | cons c cs ih =>
    match s with
    | [] => simp [hasPre] at h
    | d :: ds =>
      simp only [hasPre, Bool.and_eq_true, decide_eq_true_eq] at h
      obtain ⟨rfl, h2⟩ := h
      obtain ⟨r, rfl⟩ := ih ds h2
      exact ⟨r, rfl⟩

/-- Every capture marker in the pattern is immediately followed by the end of
the pattern or by a literal segment that begins with a separator character.
This is the side condition under which the greedy capture of `Pat.match`
(which always runs to the next separator) agrees with the regexp semantics. -/
def delimitedB : Pat → Bool
  | [] => true
  | [_] => true
  | seg :: s2 :: rest => (!seg.isEmpty || headIsSep s2) && delimitedB (s2 :: rest)

theorem delimitedB_tail {seg : Str} {rest : Pat}
    (h : delimitedB (seg :: rest) = true) : delimitedB rest = true := by
  match rest with
  | [] => rfl
  | s2 :: r2 =>
    simp only [delimitedB, Bool.and_eq_true] at h
    exact h.2

theorem delimitedB_cap_head {rest : Pat}
    (h : delimitedB (([] : Str) :: rest) = true) :
    rest = [] ∨ ∃ s2 r2, rest = s2 :: r2 ∧ headIsSep s2 = true := by
  match rest with
  | [] => exact Or.inl rfl
  | s2 :: r2 =>
    simp only [delimitedB, List.isEmpty_nil, Bool.not_true, Bool.false_or,
      Bool.and_eq_true] at h
    exact Or.inr ⟨s2, r2, rfl, h.1⟩

/-- Build the input of the templated round-trip: literal segments verbatim,
each capture marker replaced by the next substituted value. -/
def fill : Pat → List Str → Str
  | [], _ => []
  | seg :: rest, vals =>
    if seg = [] then
      match vals with
      | [] => []
      | v :: vs => v ++ fill rest vs
    else seg ++ fill rest vals

theorem patNum_cons_cap (rest : Pat) : Pat.Num (([] : Str) :: rest) = Pat.Num rest + 1 := by
  simp [Pat.Num, List.countP_cons, Nat.add_comm]

theorem patNum_cons_lit {seg : Str} (h : ¬(seg = [])) (rest : Pat) :
    Pat.Num (seg :: rest) = Pat.Num rest := by
  simp [Pat.Num, List.countP_cons, List.isEmpty_iff, h]

theorem fill_headIsSep {s2 : Str} {r2 : Pat} (h : headIsSep s2 = true) (vs : List Str) :
    headIsSep (fill (s2 :: r2) vs) = true := by
  match s2 with
  | [] => simp [headIsSep] at h
  | c :: cs =>
    have : ¬((c :: cs : Str) = []) := by simp
    simp only [fill, if_neg this, List.cons_append]
    exact h

theorem matchCore_fill : ∀ (segs : Pat) (vals subs : List Str),
    delimitedB segs = true →
    vals.length = Pat.Num segs →
    (∀ v ∈ vals, v ≠ [] ∧ sepFree v) →
    subs.length + Pat.Num segs ≤ subsCap →
    Pat.matchCore segs (fill segs vals) subs = some (subs ++ vals) := by
  intro segs
  induction segs with
  | nil =>
    intro vals subs _ hnum _ _
    have : vals = [] := by
      have : vals.length = 0 := by simpa [Pat.Num] using hnum
      exact List.length_eq_zero.mp this
    subst this
    simp [fill, Pat.matchCore]
  | cons seg rest ih =>
    intro vals subs hdel hnum hvals hcap
    by_cases hseg : seg = []
    · subst hseg
      rw [patNum_cons_cap] at hnum hcap
      match vals with
      | [] => simp at hnum
      | v :: vs =>
        obtain ⟨hvne, hvsep⟩ := hvals v (by simp)
        have hvs : ∀ x ∈ vs, x ≠ [] ∧ sepFree x := fun x hx => hvals x (by simp [hx])
        have hfillsep : fill rest vs = [] ∨ headIsSep (fill rest vs) = true := by
          rcases delimitedB_cap_head hdel with hrest | ⟨s2, r2, rfl, hs2⟩
          · subst hrest; exact Or.inl rfl
          · exact Or.inr (fill_headIsSep hs2 vs)
        have htus : takeUntilSep (fill (([] : Str) :: rest) (v :: vs))
            = (v, fill rest vs) := by
          have hfill : fill (([] : Str) :: rest) (v :: vs) = v ++ fill rest vs := by
            simp [fill]
          rw [hfill, takeUntilSep_append_sepFree v hvsep]
          rcases hfillsep with hnil | hsep
          · rw [hnil]; simp [takeUntilSep]
          · rw [takeUntilSep_headSep _ hsep]; simp
        have hadd : subsAdd subs v = some (subs ++ [v]) := by
          rw [subsAdd, if_neg hvne, if_neg (by omega)]
        simp only [Pat.matchCore, if_pos rfl, htus, hadd]
        have := ih vs (subs ++ [v]) (delimitedB_tail hdel)
          (by simpa using hnum) hvs (by simp; omega)
        rw [this]
        simp
    · have hfill : fill (seg :: rest) vals = seg ++ fill rest vals := by
        simp [fill, hseg]
      rw [patNum_cons_lit hseg] at hnum hcap
      simp only [Pat.matchCore, if_neg hseg, hfill, hasPre_append, if_pos rfl,
        List.drop_left]
      exact ih vals subs (delimitedB_tail hdel) hnum hvals hcap

/-- Counterexample to claim C5 as stated: the pattern `/one/two_{}.four`
parses (so it is a templated pattern with one capture marker), the string
`three` contains no separator, the input `/one/two_three.four` is built by
substituting it for the marker with the literals verbatim, yet `Pat.Match`
is false and `Pat.Submatch` does not return the substituted value: the
capture greedily runs to the next `/`, `?`, `#` (or the end), not to the next
literal, so the trailing literal `.four` can never match. (This behaviour is
pinned down by the repository's own test for this pattern and input.) -/
theorem claim_c5_counterexample :
    Pat.Parse (str "/one/two_\x7b\x7d.four")
      = .ok [str "/one/two_", [], str ".four"]
    ∧ sepFree (str "three")
    ∧ (str "three") ≠ []
    ∧ fill [str "/one/two_", [], str ".four"] [str "three"]
      = str "/one/two_three.four"
    ∧ Pat.Match [str "/one/two_", [], str ".four"] (str "/one/two_three.four") = false
    ∧ Pat.Submatch [str "/one/two_", [], str ".four"] (str "/one/two_three.four")
      ≠ some [str "three"] := by
  refine ⟨by decide, by decide, by decide, by decide, by decide, by decide⟩

/-- Claim C5, amended: the round-trip holds for a templated pattern whose
capture markers are each immediately followed by the end of the pattern or by
a literal beginning with a separator (`delimitedB`), with at most `subsCap`
markers, under substitution of non-empty separator-free strings: `Pat.Match`
is true and `Pat.Submatch` returns exactly the substituted values in order. -/
theorem claim_c5_roundtrip (p : Pat) (vals : List Str)
    (hdel : delimitedB p = true)
    (hnum : vals.length = Pat.Num p)
    (hcap : Pat.Num p ≤ subsCap)
    (hvals : ∀ v ∈ vals, v ≠ [] ∧ sepFree v) :
    Pat.Submatch p (fill p vals) = some vals
    ∧ Pat.Match p (fill p vals) = true := by
  have h := matchCore_fill p vals [] hdel hnum hvals (by simpa using hcap)
  exact ⟨by simpa [Pat.Submatch] using h, by simp [Pat.Match, h]⟩

/-- Witness for the amended claim C5 at a concrete input: the pattern
`/articles/{}` with the value `42` matches `/articles/42`, capturing `42`. -/
theorem claim_c5_roundtrip_witness :
    delimitedB [str "/articles/", []] = true
    ∧ fill [str "/articles/", []] [str "42"] = str "/articles/42"
    ∧ Pat.Submatch [str "/articles/", []] (str "/articles/42") = some [str "42"]
    ∧ Pat.Match [str "/articles/", []] (str "/articles/42") = true := by
  have h := claim_c5_roundtrip [str "/articles/", []] [str "42"]
    (by decide) (by decide) (by decide)
    (fun v hv => by
      simp only [List.mem_singleton] at hv
      subst hv
      exact ⟨by decide, by decide⟩)
  have hfill : fill [str "/articles/", []] [str "42"] = str "/articles/42" := by decide
  rw [hfill] at h
  exact ⟨by decide, hfill, h.1, h.2⟩

/-- The standard (declarative) semantics of the anchored regexp text that
`Pat.Reg` emits for a pattern: `^`, one regexp piece per segment, `$`. The
whole input decomposes into one chunk per segment; the chunk of a literal
segment is the escaped literal itself (`quoteMeta` makes each character match
itself), and the chunk of a capture marker is a non-empty separator-free
string (the class `([^/?#]+)`); the captures are the marker chunks in
order. -/
inductive RegAcc : Pat → Str → List Str → Prop where
  | nil : RegAcc [] [] []
  | lit {segs : Pat} {rem : Str} {caps : List Str} (seg : Str) (h : seg ≠ []) :
      RegAcc segs rem caps → RegAcc (seg :: segs) (seg ++ rem) caps
  | cap {segs : Pat} {rem : Str} {caps : List Str} (v : Str)
      (hne : v ≠ []) (hsep : sepFree v) :
      RegAcc segs rem caps → RegAcc (([] : Str) :: segs) (v ++ rem) (v :: caps)

theorem regAcc_nil_inv {rem : Str} {caps : List Str} (h : RegAcc [] rem caps) :
    rem = [] ∧ caps = [] := by
  cases h
  exact ⟨rfl, rfl⟩

theorem regAcc_head_sep {s2 : Str} {r2 : Pat} {rem : Str} {caps : List Str}
    (h : RegAcc (s2 :: r2) rem caps) (hs2 : headIsSep s2 = true) :
    headIsSep rem = true := by
  match s2, hs2, h with
  | [], hs2, _ => simp [headIsSep] at hs2
  | c :: cs, hs2, h =>
    cases h
    exact hs2

theorem matchCore_regAcc : ∀ (segs : Pat) (rem : Str) (subs0 subs : List Str),
    Pat.matchCore segs rem subs0 = some subs →
    ∃ caps, subs = subs0 ++ caps ∧ RegAcc segs rem caps := by
  intro segs
  induction segs with
  | nil =>
    intro rem subs0 subs h
    simp only [Pat.matchCore] at h
    split at h
    · rename_i hrem
      subst hrem
      refine ⟨[], by simpa using h.symm, RegAcc.nil⟩
    · exact absurd h (by simp)
  | cons seg rest ih =>
    intro rem subs0 subs h
    by_cases hseg : seg = []
    · subst hseg
      simp only [Pat.matchCore, if_pos rfl] at h
      set p := takeUntilSep rem with hp
      match hadd : subsAdd subs0 p.1 with
      | none => rw [hadd] at h; exact absurd h (by simp)
      | some subs1 =>
        rw [hadd] at h
        have hcond : ¬(p.1 = []) ∧ subs1 = subs0 ++ [p.1] := by
          rw [subsAdd] at hadd
          split at hadd
          · exact absurd hadd (by simp)
          · split at hadd
            · exact absurd hadd (by simp)
            · rename_i hne _
              exact ⟨hne, by simpa using hadd.symm⟩
        obtain ⟨caps2, hsubs, hacc⟩ := ih p.2 subs1 subs h
        obtain ⟨hsplit, hsep, _⟩ := takeUntilSep_split rem
        refine ⟨p.1 :: caps2, ?_, ?_⟩
        · rw [hsubs, hcond.2]; simp
        · have : RegAcc (([] : Str) :: rest) (p.1 ++ p.2) (p.1 :: caps2) :=
            RegAcc.cap p.1 hcond.1 hsep hacc
          rwa [hsplit] at this
    · simp only [Pat.matchCore, if_neg hseg] at h
      split at h
      · rename_i hpre
        obtain ⟨r, hrem⟩ := hasPre_exists seg rem hpre
        subst hrem
        rw [List.drop_left] at h
        obtain ⟨caps, hsubs, hacc⟩ := ih r subs0 subs h
        exact ⟨caps, hsubs, RegAcc.lit seg hseg hacc⟩
      · exact absurd h (by simp)

theorem regAcc_matchCore {segs : Pat} {rem : Str} {caps : List Str}
    (h : RegAcc segs rem caps) :
    ∀ subs0 : List Str, delimitedB segs = true →
      subs0.length + Pat.Num segs ≤ subsCap →
      Pat.matchCore segs rem subs0 = some (subs0 ++ caps) := by
  induction h with
  | nil =>
    intro subs0 _ _
    simp [Pat.matchCore]
  | lit seg hne hacc ih =>
    intro subs0 hdel hcap
    rename_i segs rem caps
    simp only [Pat.matchCore, if_neg hne, hasPre_append, if_pos rfl, List.drop_left]
    exact ih subs0 (delimitedB_tail hdel) (by rwa [patNum_cons_lit hne] at hcap)
  | cap v hne hsep hacc ih =>
    intro subs0 hdel hcap
    rename_i segs rem caps
    have hremsep : rem = [] ∨ headIsSep rem = true := by
      rcases delimitedB_cap_head hdel with hrest | ⟨s2, r2, hrest, hs2⟩
      · subst hrest
        exact Or.inl (regAcc_nil_inv hacc).1
      · subst hrest
        exact Or.inr (regAcc_head_sep hacc hs2)
    have htus : takeUntilSep (v ++ rem) = (v, rem) := by
      rw [takeUntilSep_append_sepFree v hsep]
      rcases hremsep with hnil | hsep2
      · rw [hnil]; simp [takeUntilSep]
      · rw [takeUntilSep_headSep _ hsep2]; simp
    rw [patNum_cons_cap] at hcap
    have hadd : subsAdd subs0 v = some (subs0 ++ [v]) := by
      rw [subsAdd, if_neg hne, if_neg (by omega)]
    simp only [Pat.matchCore, if_pos rfl, htus, hadd]
    have := ih (subs0 ++ [v]) (delimitedB_tail hdel) (by simp; omega)
    rw [this]
    simp

/-- Counterexample to claim C8 as stated: for the parsed pattern `{}{}` and
input `ab`, the regexp `^([^/?#]+)([^/?#]+)$` produced by `Pat.Reg` matches
(decomposition `a` / `b`, as `RegAcc` witnesses), but `Pat.Match` is false
and `Pat.Submatch` is nil: the first capture greedily consumes the whole
input up to the next separator, without backtracking, leaving nothing for
the second capture. -/
theorem claim_c8_counterexample :
    Pat.Parse (str "\x7b\x7d\x7b\x7d") = .ok [[], []]
    ∧ Pat.Reg [[], []] = str "^([^/?#]+)([^/?#]+)$"
    ∧ RegAcc [[], []] (str "ab") [str "a", str "b"]
    ∧ Pat.Match [[], []] (str "ab") = false
    ∧ Pat.Submatch [[], []] (str "ab") = none := by
  refine ⟨by decide, by decide, ?_, by decide, by decide⟩
  have h2 : RegAcc [([] : Str)] (['b'] ++ []) [['b']] :=
    RegAcc.cap ['b'] (by decide) (by decide) RegAcc.nil
  have h1 : RegAcc [([] : Str), []] (['a'] ++ ['b']) [['a'], ['b']] :=
    RegAcc.cap ['a'] (by decide) (by decide) (by simpa using h2)
  simpa using h1

/-- Claim C8, amended: for a templated pattern with at most `subsCap` capture
markers in which every capture marker is immediately followed by the end of
the pattern or by a literal beginning with a separator (`delimitedB`), the
anchored regexp emitted by `Pat.Reg` — whose standard semantics is `RegAcc` —
matches exactly the same inputs, with the same positional captures, as
`Pat.Match` and `Pat.Submatch` do directly. -/
theorem claim_c8_regexp_equivalence (p : Pat) (inp : Str)
    (hdel : delimitedB p = true) (hcap : Pat.Num p ≤ subsCap) :
    (∀ caps, Pat.Submatch p inp = some caps ↔ RegAcc p inp caps)
    ∧ (Pat.Match p inp = true ↔ ∃ caps, RegAcc p inp caps) := by
  constructor
  · intro caps
    constructor
    · intro h
      obtain ⟨caps2, hcaps, hacc⟩ := matchCore_regAcc p inp [] caps h
      simpa [hcaps] using hacc
    · intro h
      have := regAcc_matchCore h [] hdel (by simpa using hcap)
      simpa [Pat.Submatch] using this
  · constructor
    · intro h
      rw [Pat.Match, Option.isSome_iff_exists] at h
      obtain ⟨caps, hcaps⟩ := h
      obtain ⟨caps2, hc2, hacc⟩ := matchCore_regAcc p inp [] caps hcaps
      exact ⟨caps2, hacc⟩
    · intro ⟨caps, hacc⟩
      have := regAcc_matchCore hacc [] hdel (by simpa using hcap)
      simp [Pat.Match, Pat.matchCore] at this ⊢
      simp [this]

/-- Witness for the amended claim C8 at a concrete input: pattern `/{}`,
input `/a`; both directions of the equivalence are instantiated. -/
theorem claim_c8_regexp_equivalence_witness :
    delimitedB [str "/", []] = true
    ∧ Pat.Num [str "/", []] ≤ subsCap
    ∧ (Pat.Match [str "/", []] (str "/a") = true
        ↔ ∃ caps, RegAcc [str "/", []] (str "/a") caps)
    ∧ (∀ caps, Pat.Submatch [str "/", []] (str "/a") = some caps
        ↔ RegAcc [str "/", []] (str "/a") caps) := by
  have h := claim_c8_regexp_equivalence [str "/", []] (str "/a") (by decide) (by decide)
  exact ⟨by decide, by decide, h.2, h.1⟩

/-- An abstract regexp engine standing in for Go's `regexp` package (used by
the `MatchReg` style through `cachedRegexp`): `test` is `MatchString`, `find`
is `FindStringSubmatch` with the whole-match entry already dropped
(`match[1:]`), `none` meaning no match. The routing results below hold for
every engine. -/
structure RegexEngine where
  test : Str → Str → Bool
  find : Str → Str → Option (List Str)

/-- `reTest` from `rout_util.go`: the empty pattern matches anything,
otherwise ask the engine. -/
def reTest (eng : RegexEngine) (inp pat : Str) : Bool :=
  pat = [] || eng.test pat inp

/-- `reMatch` from `rout_util.go`: the empty pattern matches anything with no
captures, otherwise the engine's captures (or `nil`). -/
def reMatch (eng : RegexEngine) (inp pat : Str) : Option (List Str) :=
  if pat = [] then some [] else eng.find pat inp

/-- Modelled from the spec (the helper `matchExa` is not under `src`; only
its dispatch in `Match.Match` is): exact style matches iff the path equals
the pattern (the empty pattern is handled by the dispatcher). -/
def matchExa (pat inp : Str) : Bool := pat = inp

/-- Modelled from the spec (the helper `matchSta` is not under `src`): prefix
style matches iff the pattern is a literal prefix of the path and the match
does not split a path segment: the path equals the pattern, or the pattern
ends with `/`, or the remainder of the path starts with `/`. -/
def matchSta (pat inp : Str) : Bool :=
  hasPre pat inp
    && (inp.length = pat.length
      || pat.getLast? = some '/'
      || (inp.drop pat.length).headI = '/')

/-- Modelled from the spec (the helper `matchPat` is not under `src`): the
templated style compiles the pattern via `Pat.Parse` (lazily, cached) and
matches via `Pat.Match`; a pattern that fails to parse matches nothing. -/
def matchPat (pat inp : Str) : Bool :=
  match Pat.Parse pat with
  | .ok p => Pat.Match p inp
  | .error _ => false

/-- Modelled from the spec: `submatchExa` returns the empty (non-nil) capture
list on an exact match, `nil` otherwise. -/
def submatchExa (pat inp : Str) : Option (List Str) :=
  if matchExa pat inp then some [] else none

/-- Modelled from the spec: `submatchSta` returns the empty (non-nil) capture
list on a prefix match, `nil` otherwise. -/
def submatchSta (pat inp : Str) : Option (List Str) :=
  if matchSta pat inp then some [] else none

/-- Modelled from the spec: `submatchPat` compiles via `Pat.Parse` and
submatches via `Pat.Submatch`. -/
def submatchPat (pat inp : Str) : Option (List Str) :=
  match Pat.Parse pat with
  | .ok p => Pat.Submatch p inp
  | .error _ => none

/-- The pattern-matching styles of `rout_misc.go`: exact, prefix, regexp,
OAS-style template (in source order, `MatchExa` being the zero value). -/
inductive Match where
  | exa
  | sta
  | reg
  | pat
deriving DecidableEq

/-- `Match.Match` from `rout_misc.go` (named `MatchStr` here because a
namespace member cannot share its namespace's name): the empty pattern
matches any input; otherwise dispatch on the style. -/
def Match.MatchStr (self : Match) (eng : RegexEngine) (pat inp : Str) : Bool :=
  if pat = [] then true
  else
    match self with
    | .exa => matchExa pat inp
    | .sta => matchSta pat inp
    | .reg => reTest eng inp pat
    | .pat => matchPat pat inp

/-- `Match.Submatch` from `rout_misc.go`: the empty pattern matches any input
with no captures; otherwise dispatch on the style. -/
def Match.SubmatchStr (self : Match) (eng : RegexEngine) (pat inp : Str) : Option (List Str) :=
  if pat = [] then some []
  else
    match self with
    | .exa => submatchExa pat inp
    | .sta => submatchSta pat inp
    | .reg => reMatch eng inp pat
    | .pat => submatchPat pat inp

/-- The read-only request data the router consults: `req.Method` and
`req.URL.Path`. -/
structure Req where
  method : Str
  path : Str
deriving DecidableEq

/-- The router value of `rout_rou.go`. `rew` is an opaque token for the
`http.ResponseWriter`, `req` the optional request (`nil` possible), `vis`
the optional visitor identity (`nil` = real routing); `method`, `pattern`,
`style`, `onlyMethod` are the matching criteria (Go fields `Method`,
`Pattern`, `Style`, `OnlyMethod`). -/
structure Rou where
  rew : Nat
  req : Option Req
  vis : Option Nat
  method : Str
  pattern : Str
  style : Match
  onlyMethod : Bool
deriving DecidableEq

/-- `MakeRou`: a router for the given request-response, all criteria at their
zero values. -/
def MakeRou (rew : Nat) (req : Option Req) : Rou :=
  { rew := rew, req := req, vis := none, method := [], pattern := [],
    style := .exa, onlyMethod := false }

/-- `Rou.meth`: the request method, or empty when there is no request. -/
def Rou.meth (self : Rou) : Str :=
  match self.req with
  | some q => q.method
  | none => []

/-- `Rou.path`: the request path, or empty when there is no request. -/
def Rou.path (self : Rou) : Str :=
  match self.req with
  | some q => q.path
  | none => []

/-- `Rou.real`: true when no visitor is set (a real routing run, not a dry run). -/
def Rou.real (self : Rou) : Bool := self.vis.isNone

/-- `Rou.matchMethod`: an empty declared method matches anything, otherwise
the declared method must equal the request method. -/
def Rou.matchMethod (self : Rou) : Bool :=
  self.method = [] || self.method = self.meth

/-- `Rou.matchPattern`: match the declared pattern against the request path
under the declared style. -/
def Rou.matchPattern (self : Rou) (eng : RegexEngine) : Bool :=
  Match.MatchStr self.style eng self.pattern self.path

/-- `Rou.submatchPattern`: submatch the declared pattern against the request
path under the declared style. -/
def Rou.submatchPattern (self : Rou) (eng : RegexEngine) : Option (List Str) :=
  Match.SubmatchStr self.style eng self.pattern self.path

/-- The routing errors of `rout_err.go`, carrying the request method and
path they were generated from (`MethodNotAllowed(self.req())`,
`NotFound(self.req())`). -/
inductive RoutErr where
  | methodNotAllowed (meth path : Str)
  | notFound (meth path : Str)
deriving DecidableEq

/-- The `HttpStatusCode` of a routing error: 405 for `ErrMethodNotAllowed`,
404 for `ErrNotFound`. -/
def RoutErr.httpStatusCode : RoutErr → Nat
  | .methodNotAllowed _ _ => 405
  | .notFound _ _ => 404

/-- `Rou.pat`: the shared builder behind `Rou.Reg`, `Rou.Pat`, `Rou.Exa` and
`Rou.Sta`: set the pattern and style, and reset "method only" mode. -/
def Rou.pat (self : Rou) (pattern : Str) (style : Match) : Rou :=
  { self with pattern := pattern, style := style, onlyMethod := false }

/-- `Rou.Reg`: match `req.URL.Path` by regexp. -/
def Rou.Reg (self : Rou) (val : Str) : Rou := self.pat val .reg

/-- `Rou.Pat`: match `req.URL.Path` by OAS-style template. -/
def Rou.Pat (self : Rou) (val : Str) : Rou := self.pat val .pat

/-- `Rou.Exa`: match `req.URL.Path` exactly. -/
def Rou.Exa (self : Rou) (val : Str) : Rou := self.pat val .exa

/-- `Rou.Sta`: match `req.URL.Path` by prefix. -/
def Rou.Sta (self : Rou) (val : Str) : Rou := self.pat val .sta

/-- `Rou.Meth`: match only the given method (empty = all methods). -/
def Rou.Meth (self : Rou) (val : Str) : Rou := { self with method := val }

/-- `Rou.MethodOnly`: switch to "method only" mode. -/
def Rou.MethodOnly (self : Rou) : Rou := { self with onlyMethod := true }

/-- `Rou.Get`: same as `.Meth(http.MethodGet)`. -/
def Rou.Get (self : Rou) : Rou := self.Meth (str "GET")

/-- `Rou.Head`: same as `.Meth(http.MethodHead)`. -/
def Rou.Head (self : Rou) : Rou := self.Meth (str "HEAD")

/-- `Rou.Options`: same as `.Meth(http.MethodOptions)`. -/
def Rou.Options (self : Rou) : Rou := self.Meth (str "OPTIONS")

/-- `Rou.Post`: same as `.Meth(http.MethodPost)`. -/
def Rou.Post (self : Rou) : Rou := self.Meth (str "POST")

/-- `Rou.Patch`: same as `.Meth(http.MethodPatch)`. -/
def Rou.Patch (self : Rou) : Rou := self.Meth (str "PATCH")

/-- `Rou.Put`: same as `.Meth(http.MethodPut)`. -/
def Rou.Put (self : Rou) : Rou := self.Meth (str "PUT")

/-- `Rou.Delete`: same as `.Meth(http.MethodDelete)`. -/
def Rou.Delete (self : Rou) : Rou := self.Meth (str "DELETE")

/-- `Rou.Connect`: same as `.Meth(http.MethodConnect)`. -/
def Rou.Connect (self : Rou) : Rou := self.Meth (str "CONNECT")

/-- `Rou.Trace`: same as `.Meth(http.MethodTrace)`. -/
def Rou.Trace (self : Rou) : Rou := self.Meth (str "TRACE")

/-- `Rou.matchStrict`: no pattern match is a silent `false`; a pattern match
with a method match is `true`; a pattern match with a method mismatch panics
with `ErrMethodNotAllowed` (modelled as the `Except` error). -/
def Rou.matchStrict (self : Rou) (eng : RegexEngine) : Except RoutErr Bool :=
  if !(self.matchPattern eng) then .ok false
  else if self.matchMethod then .ok true
  else .error (.methodNotAllowed self.meth self.path)

/-- `Rou.Match`: in "method only" mode test only the method (never raising an
error); otherwise test strictly. -/
def Rou.Match (self : Rou) (eng : RegexEngine) : Except RoutErr Bool :=
  if self.onlyMethod then .ok self.matchMethod
  else self.matchStrict eng

/-- `Rou.submatchOnlyMethod`: the non-nil empty capture list on a method
match, `nil` otherwise. -/
def Rou.submatchOnlyMethod (self : Rou) : Option (List Str) :=
  if self.matchMethod then some [] else none

/-- `Rou.submatchStrict`: `nil` when the pattern doesn't submatch; the
captures when the method also matches; otherwise the `ErrMethodNotAllowed`
panic. -/
def Rou.submatchStrict (self : Rou) (eng : RegexEngine) :
    Except RoutErr (Option (List Str)) :=
  match self.submatchPattern eng with
  | none => .ok none
  | some args =>
    if self.matchMethod then .ok (some args)
    else .error (.methodNotAllowed self.meth self.path)

/-- `Rou.Submatch`: dispatch on "method only" mode like `Rou.Match`. -/
def Rou.Submatch (self : Rou) (eng : RegexEngine) :
    Except RoutErr (Option (List Str)) :=
  if self.onlyMethod then .ok self.submatchOnlyMethod
  else self.submatchStrict eng


/-- Observable events of one routing attempt: a handler invocation by a
matched leaf, or a visitor call during a dry run. -/
inductive Ev where
  | invoked (hid : Nat)
  | visited (hid : Nat)
deriving DecidableEq

/-- The panic payloads of the routing flow (`rec`/`toErr` in
`rout_util.go` turn them into the returned error): `panic(nil)` after a
handled leaf (recovered as a nil error), or a panic carrying a routing
error. -/
inductive Signal where
  | ok
  | err (e : RoutErr)
deriving DecidableEq

/-- A declaration-function body: the sequence of routing statements it
executes on the router it receives. Each statement derives its own router
from the received one through a chain of builder calls (`build`), exactly as
`r.Pat(...).Get().Func(h)` does; `hid` identifies the handler; `sub` and
`methods` carry the nested declaration function's body, which is evaluated
against the router the source passes to it (`self` for `Rou.Sub`,
`self.MethodOnly()` for `Rou.Methods`). -/
inductive Decl where
  | done
  | func (build : Rou → Rou) (hid : Nat) (next : Decl)
  | sub (build : Rou → Rou) (body : Decl) (next : Decl)
  | methods (build : Rou → Rou) (body : Decl) (next : Decl)

/-- Sequencing in the panic model: if the first statement panicked, the panic
propagates (nothing later runs); otherwise continue, accumulating events. -/
def seqSignal (a : List Ev × Option Signal) (k : Unit → List Ev × Option Signal) :
    List Ev × Option Signal :=
  match a with
  | (tr, some sig) => (tr, some sig)
  | (tr, none) =>
    let b := k ()
    (tr ++ b.1, b.2)

/-- The tail of `Rou.Sub` and `Rou.Methods` in a real run: a panic from the
nested body propagates; if the body returns normally, panic with the given
routing error. -/
def subFinish (a : List Ev × Option Signal) (e : RoutErr) : List Ev × Option Signal :=
  match a with
  | (tr, some sig) => (tr, some sig)
  | (tr, none) => (tr, some (.err e))

/-- `Rou.Func` (`rout_rou.go`): in a dry run, visit the endpoint and return;
otherwise, a `Rou.Match` panic propagates, a non-match falls through, and a
match invokes the handler and then panics with nil ("handled"). -/
def stmtFunc (eng : RegexEngine) (r : Rou) (hid : Nat) : List Ev × Option Signal :=
  if r.real then
    match r.Match eng with
    | .error e => ([], some (.err e))
    | .ok false => ([], none)
    | .ok true => ([.invoked hid], some .ok)
  else ([.visited hid], none)

/-- Evaluation of a declaration body against a router, in the panic model:
the second component is `none` when the body returns normally, `some sig`
when it panics with `sig`. `func` is `Rou.Func`; `sub` is `Rou.Sub` (on a
real router: skip on non-match, otherwise run the body and panic with
`ErrNotFound` if it returns normally); `methods` is `Rou.Methods` (on a real
router: skip when the pattern alone does not match, otherwise run the body
against the method-only router and panic with `ErrMethodNotAllowed` if it
returns normally); on a dry-run router both always run the body and fall
through. -/
def eval (eng : RegexEngine) : Decl → Rou → List Ev × Option Signal
  | .done, _ => ([], none)
  | .func build hid next, r =>
    seqSignal (stmtFunc eng (build r) hid) (fun _ => eval eng next r)
  | .sub build body next, r =>
    let rsub := build r
    if rsub.real then
      match rsub.Match eng with
      | .error e => ([], some (.err e))
      | .ok false => eval eng next r
      | .ok true => subFinish (eval eng body rsub) (.notFound rsub.meth rsub.path)
    else
      seqSignal (eval eng body rsub) (fun _ => eval eng next r)
  | .methods build body next, r =>
    let rg := build r
    if rg.real then
      if rg.matchPattern eng then
        subFinish (eval eng body rg.MethodOnly) (.methodNotAllowed rg.meth rg.path)
      else eval eng next r
    else
      seqSignal (eval eng body rg.MethodOnly) (fun _ => eval eng next r)

/-- `Rou.Route` (`rout_rou.go`): `defer rec(&err); self.Sub(fun)`. The
top-level `Sub` carries the declaration function; `rec` recovers the panic:
a nil payload leaves the error nil (handled), an error payload becomes the
returned error, and a normal return (possible only in a dry run) returns
nil. -/
def Rou.Route (self : Rou) (eng : RegexEngine) (d : Decl) : List Ev × Option RoutErr :=
  match eval eng (.sub (fun r => r) d .done) self with
  | (tr, some .ok) => (tr, none)
  | (tr, some (.err e)) => (tr, some e)
  | (tr, none) => (tr, none)

/-- Sequential composition of declaration bodies (writing one body's
statements after another's). -/
def Decl.append : Decl → Decl → Decl
  | .done, k => k
  | .func b h n, k => .func b h (n.append k)
  | .sub b body n, k => .sub b body (n.append k)
  | .methods b body n, k => .methods b body (n.append k)

theorem seqSignal_assoc (a : List Ev × Option Signal)
    (k1 k2 : Unit → List Ev × Option Signal) :
    seqSignal (seqSignal a k1) k2 = seqSignal a (fun _ => seqSignal (k1 ()) k2) := by
  rcases a with ⟨tr, sig⟩
  cases sig with
  | some s => simp [seqSignal]
  | none =>
    rcases h1 : k1 () with ⟨tr1, sig1⟩
    cases sig1 <;> simp [seqSignal, h1, List.append_assoc]

theorem eval_append (eng : RegexEngine) (d k : Decl) (r : Rou) :
    eval eng (d.append k) r = seqSignal (eval eng d r) (fun _ => eval eng k r) := by
  induction d generalizing r with
  | done => simp [Decl.append, eval, seqSignal]
  | func build hid next ihn =>
    simp only [Decl.append, eval, ihn r, seqSignal_assoc]
  | sub build body next ihb ihn =>
    simp only [Decl.append, eval]
    by_cases hreal : (build r).real
    · simp only [hreal, if_true]
      match hm : (build r).Match eng with
      | .error e => simp [seqSignal]
      | .ok false => simpa using ihn r
      | .ok true =>
        rcases hb : eval eng body (build r) with ⟨tr, sig⟩
        cases sig <;> simp [subFinish, seqSignal, hb]
    · simp only [hreal, if_false, Bool.false_eq_true, ihn r, seqSignal_assoc]
  | methods build body next ihb ihn =>
    simp only [Decl.append, eval]
    by_cases hreal : (build r).real
    · simp only [hreal, if_true]
      by_cases hpat : (build r).matchPattern eng
      · rcases hb : eval eng body (build r).MethodOnly with ⟨tr, sig⟩
        simp only [hpat, if_true]
        cases sig <;> simp [subFinish, seqSignal, hb]
      · simp only [hpat, if_false, Bool.false_eq_true]
        exact ihn r
    · simp only [hreal, if_false, Bool.false_eq_true, ihn r, seqSignal_assoc]

theorem seqSignal_none_inv {a : List Ev × Option Signal}
    {k : Unit → List Ev × Option Signal} {tr : List Ev}
    (h : seqSignal a k = (tr, none)) :
    a.2 = none ∧ (k ()).2 = none ∧ tr = a.1 ++ (k ()).1 := by
  rcases a with ⟨tra, siga⟩
  cases siga with
  | some sig => simp [seqSignal] at h
  | none =>
    simp only [seqSignal, Prod.mk.injEq] at h
    exact ⟨rfl, h.2, h.1.symm⟩

theorem subFinish_ne_none {a : List Ev × Option Signal} {e : RoutErr} :
    (subFinish a e).2 ≠ none := by
  rcases a with ⟨tr, sig⟩
  cases sig <;> simp [subFinish]

theorem stmtFunc_none_inv {eng : RegexEngine} {r : Rou} {hid : Nat} {tr : List Ev}
    (h : stmtFunc eng r hid = (tr, none)) :
    tr = [] ∨ tr = [Ev.visited hid] := by
  rw [stmtFunc] at h
  split at h
  · split at h
    · simp at h
    · simp only [Prod.mk.injEq] at h
      exact Or.inl h.1.symm
    · simp at h
  · simp only [Prod.mk.injEq] at h
    exact Or.inr h.1.symm

theorem eval_none_no_invoked (eng : RegexEngine) (d : Decl) :
    ∀ (r : Rou) (tr : List Ev), eval eng d r = (tr, none) →
      ∀ ev ∈ tr, ∀ hid, ev ≠ Ev.invoked hid := by
  induction d with
  | done =>
    intro r tr h ev hev
    simp only [eval, Prod.mk.injEq] at h
    rw [← h.1] at hev
    simp at hev
  | func build hid next ihn =>
    intro r tr h ev hev hid2
    simp only [eval] at h
    obtain ⟨h1, h2, h3⟩ := seqSignal_none_inv h
    subst h3
    rcases List.mem_append.mp hev with hev | hev
    · rcases hsf : stmtFunc eng (build r) hid with ⟨trf, sigf⟩
      rw [hsf] at h1 hev
      cases sigf with
      | some _ => simp at h1
      | none =>
        rcases stmtFunc_none_inv hsf with h4 | h4 <;> (rw [h4] at hev; simp at hev)
        subst hev
        simp
    · rcases hnx : eval eng next r with ⟨trn, sign⟩
      rw [hnx] at h2 hev
      cases sign with
      | some _ => simp at h2
      | none => exact ihn r trn hnx ev hev hid2
  | sub build body next ihb ihn =>
    intro r tr h ev hev hid
    simp only [eval] at h
    by_cases hreal : (build r).real
    · rw [if_pos hreal] at h
      match hm : (build r).Match eng with
      | .error e => rw [hm] at h; simp at h
      | .ok false => rw [hm] at h; exact ihn r tr h ev hev hid
      | .ok true =>
        rw [hm] at h
        exact absurd (congrArg Prod.snd h) (by simpa using subFinish_ne_none)
    · rw [if_neg hreal] at h
      obtain ⟨h1, h2, h3⟩ := seqSignal_none_inv h
      subst h3
      rcases List.mem_append.mp hev with hev | hev
      · rcases hb : eval eng body (build r) with ⟨trb, sigb⟩
        rw [hb] at h1 hev
        cases sigb with
        | some _ => simp at h1
        | none => exact ihb (build r) trb hb ev hev hid
      · rcases hnx : eval eng next r with ⟨trn, sign⟩
        rw [hnx] at h2 hev
        cases sign with
        | some _ => simp at h2
        | none => exact ihn r trn hnx ev hev hid
  | methods build body next ihb ihn =>
    intro r tr h ev hev hid
    simp only [eval] at h
    by_cases hreal : (build r).real
    · rw [if_pos hreal] at h
      by_cases hpat : (build r).matchPattern eng
      · rw [if_pos hpat] at h
        exact absurd (congrArg Prod.snd h) (by simpa using subFinish_ne_none)
      · rw [if_neg hpat] at h
        exact ihn r tr h ev hev hid
    · rw [if_neg hreal] at h
      obtain ⟨h1, h2, h3⟩ := seqSignal_none_inv h
      subst h3
      rcases List.mem_append.mp hev with hev | hev
      · rcases hb : eval eng body (build r).MethodOnly with ⟨trb, sigb⟩
        rw [hb] at h1 hev
        cases sigb with
        | some _ => simp at h1
        | none => exact ihb (build r).MethodOnly trb hb ev hev hid
      · rcases hnx : eval eng next r with ⟨trn, sign⟩
        rw [hnx] at h2 hev
        cases sign with
        | some _ => simp at h2
        | none => exact ihn r trn hnx ev hev hid

theorem Rou.matchMethod_false {r : Rou} (h1 : r.method ≠ []) (h2 : r.method ≠ r.meth) :
    r.matchMethod = false := by
  simp [Rou.matchMethod, h1, h2]

theorem Rou.Match_ok_of {r : Rou} (eng : RegexEngine)
    (hpat : r.matchPattern eng = true) (hmeth : r.matchMethod = true) :
    r.Match eng = .ok true := by
  rw [Rou.Match]
  split
  · rw [hmeth]
  · simp [Rou.matchStrict, hpat, hmeth]

theorem Rou.Match_strict_err {r : Rou} (eng : RegexEngine)
    (hom : r.onlyMethod = false) (hpat : r.matchPattern eng = true)
    (hmeth : r.matchMethod = false) :
    r.Match eng = .error (.methodNotAllowed r.meth r.path) := by
  simp [Rou.Match, hom, Rou.matchStrict, hpat, hmeth]

theorem Rou.Match_strict_false {r : Rou} (eng : RegexEngine)
    (hom : r.onlyMethod = false) (hpat : r.matchPattern eng = false) :
    r.Match eng = .ok false := by
  simp [Rou.Match, hom, Rou.matchStrict, hpat]

theorem Rou.Match_onlyMethod_false {r : Rou} (eng : RegexEngine)
    (hom : r.onlyMethod = true) (hmeth : r.matchMethod = false) :
    r.Match eng = .ok false := by
  simp [Rou.Match, hom, hmeth]

theorem stmtFunc_hit (eng : RegexEngine) (r : Rou) (hid : Nat)
    (hreal : r.real = true) (hm : r.Match eng = .ok true) :
    stmtFunc eng r hid = ([Ev.invoked hid], some .ok) := by
  simp [stmtFunc, hreal, hm]

theorem stmtFunc_miss (eng : RegexEngine) (r : Rou) (hid : Nat)
    (hreal : r.real = true) (hm : r.Match eng = .ok false) :
    stmtFunc eng r hid = ([], none) := by
  simp [stmtFunc, hreal, hm]

theorem stmtFunc_raise (eng : RegexEngine) (r : Rou) (hid : Nat)
    (hreal : r.real = true) (e : RoutErr) (hm : r.Match eng = .error e) :
    stmtFunc eng r hid = ([], some (.err e)) := by
  simp [stmtFunc, hreal, hm]

theorem MakeRou_Match (eng : RegexEngine) (rew : Nat) (oq : Option Req) :
    (MakeRou rew oq).Match eng = .ok true := by
  simp [Rou.Match, MakeRou, Rou.matchStrict, Rou.matchPattern, Match.MatchStr,
    Rou.matchMethod]

theorem route_root (eng : RegexEngine) (rew : Nat) (oq : Option Req) (d : Decl) :
    (MakeRou rew oq).Route eng d
      = (match subFinish (eval eng d (MakeRou rew oq))
          (.notFound (MakeRou rew oq).meth (MakeRou rew oq).path) with
        | (tr, some .ok) => (tr, none)
        | (tr, some (.err e)) => (tr, some e)
        | (tr, none) => (tr, none)) := by
  rw [Rou.Route]
  have hreal : (MakeRou rew oq).real = true := rfl
  have hm : (MakeRou rew oq).Match eng = .ok true := MakeRou_Match eng rew oq
  simp only [eval, hreal, if_true, hm]

theorem route_root_handled (eng : RegexEngine) (rew : Nat) (oq : Option Req)
    (d : Decl) (tr : List Ev)
    (h : eval eng d (MakeRou rew oq) = (tr, some .ok)) :
    (MakeRou rew oq).Route eng d = (tr, none) := by
  rw [route_root, h]
  rfl

theorem route_root_raised (eng : RegexEngine) (rew : Nat) (oq : Option Req)
    (d : Decl) (tr : List Ev) (e : RoutErr)
    (h : eval eng d (MakeRou rew oq) = (tr, some (.err e))) :
    (MakeRou rew oq).Route eng d = (tr, some e) := by
  rw [route_root, h]
  rfl

theorem route_root_fellthrough (eng : RegexEngine) (rew : Nat) (oq : Option Req)
    (d : Decl) (tr : List Ev)
    (h : eval eng d (MakeRou rew oq) = (tr, none)) :
    (MakeRou rew oq).Route eng d
      = (tr, some (.notFound (MakeRou rew oq).meth (MakeRou rew oq).path)) := by
  rw [route_root, h]
  rfl

/-- A degenerate regexp engine (matches nothing) used to instantiate the
routing theorems at concrete inputs; none of the scenarios below uses the
regexp style. -/
def noRegex : RegexEngine where
  test := fun _ _ => false
  find := fun _ _ => none

/-- Claim C1: for every request and declaration function, when a leaf
dispatch (`Rou.Func`) finds that both the pattern and the method match (on a
real run), it invokes the handler, no later sibling statement of the
declaration function executes (the result does not depend on `rest`), and
`Rou.Route` returns nil; moreover the earlier statements, having fallen
through, invoked no handler, so the handler invocation is the only one of
the attempt. -/
theorem claim_c1_func_dispatch (eng : RegexEngine) (rew : Nat) (q : Req)
    (pre rest : Decl) (build : Rou → Rou) (hid : Nat) (tr : List Ev)
    (hpre : eval eng pre (MakeRou rew (some q)) = (tr, none))
    (hreal : (build (MakeRou rew (some q))).real = true)
    (hpat : (build (MakeRou rew (some q))).matchPattern eng = true)
    (hmeth : (build (MakeRou rew (some q))).matchMethod = true) :
    (MakeRou rew (some q)).Route eng (pre.append (.func build hid rest))
      = (tr ++ [Ev.invoked hid], none)
    ∧ ∀ ev ∈ tr, ∀ hid2, ev ≠ Ev.invoked hid2 := by
  have hm := Rou.Match_ok_of eng hpat hmeth
  have hf := stmtFunc_hit eng _ hid hreal hm
  have heval : eval eng (pre.append (.func build hid rest)) (MakeRou rew (some q))
      = (tr ++ [Ev.invoked hid], some .ok) := by
    rw [eval_append, hpre]
    simp [seqSignal, eval, hf]
  exact ⟨route_root_handled eng rew (some q) _ _ heval,
    eval_none_no_invoked eng pre _ tr hpre⟩

/-- Witness for claim C1: request `GET /articles` against `GET /` then
`GET /articles`; the second leaf handles, the route returns nil. -/
theorem claim_c1_func_dispatch_witness :
    (MakeRou 0 (some ⟨str "GET", str "/articles"⟩)).Route noRegex
      ((Decl.func (fun r => (r.Exa (str "/")).Get) 1 .done).append
        (.func (fun r => (r.Exa (str "/articles")).Get) 2 .done))
      = ([] ++ [Ev.invoked 2], none) :=
  (claim_c1_func_dispatch noRegex 0 ⟨str "GET", str "/articles"⟩
    (Decl.func (fun r => (r.Exa (str "/")).Get) 1 .done) .done
    (fun r => (r.Exa (str "/articles")).Get) 2 []
    (by decide) (by decide) (by decide) (by decide)).1

/-- Claim C2: in default (strict) mode, a leaf (`Rou.Func`) or sub-routing
(`Rou.Sub`) test whose pattern matches the request path while the declared
non-empty method differs from the request method terminates the whole
routing attempt with `ErrMethodNotAllowed` (HTTP 405): the result does not
depend on the remaining sibling declarations `rest` (nor, for `Rou.Sub`, on
its nested `body`, which is never entered). -/
theorem claim_c2_strict_method_mismatch (eng : RegexEngine) (rew : Nat) (q : Req)
    (pre rest : Decl) (build : Rou → Rou) (tr : List Ev)
    (hpre : eval eng pre (MakeRou rew (some q)) = (tr, none))
    (hreal : (build (MakeRou rew (some q))).real = true)
    (hom : (build (MakeRou rew (some q))).onlyMethod = false)
    (hpat : (build (MakeRou rew (some q))).matchPattern eng = true)
    (hm1 : (build (MakeRou rew (some q))).method ≠ [])
    (hm2 : (build (MakeRou rew (some q))).method ≠ (build (MakeRou rew (some q))).meth) :
    (∀ hid : Nat,
      (MakeRou rew (some q)).Route eng (pre.append (.func build hid rest))
        = (tr, some (.methodNotAllowed (build (MakeRou rew (some q))).meth
            (build (MakeRou rew (some q))).path)))
    ∧ (∀ body : Decl,
      (MakeRou rew (some q)).Route eng (pre.append (.sub build body rest))
        = (tr, some (.methodNotAllowed (build (MakeRou rew (some q))).meth
            (build (MakeRou rew (some q))).path)))
    ∧ RoutErr.httpStatusCode (.methodNotAllowed (build (MakeRou rew (some q))).meth
        (build (MakeRou rew (some q))).path) = 405 := by
  have hmeth := Rou.matchMethod_false hm1 hm2
  have hm := Rou.Match_strict_err eng hom hpat hmeth
  refine ⟨fun hid => ?_, fun body => ?_, rfl⟩
  · have hf := stmtFunc_raise eng _ hid hreal _ hm
    refine route_root_raised eng rew (some q) _ _ _ ?_
    rw [eval_append, hpre]
    simp [seqSignal, eval, hf]
  · refine route_root_raised eng rew (some q) _ _ _ ?_
    rw [eval_append, hpre]
    simp [seqSignal, eval, hreal, hm]

/-- Witness for claim C2: request `GET /api/articles` against a `POST`-only
leaf for the same path (and the same criteria used as a `Sub`): both
terminate with the 405 error. -/
theorem claim_c2_strict_method_mismatch_witness :
    (MakeRou 0 (some ⟨str "GET", str "/api/articles"⟩)).Route noRegex
      ((Decl.done).append (.func (fun r => (r.Exa (str "/api/articles")).Post) 7 .done))
      = ([], some (.methodNotAllowed (str "GET") (str "/api/articles")))
    ∧ RoutErr.httpStatusCode
        (.methodNotAllowed (str "GET") (str "/api/articles")) = 405 := by
  have h := claim_c2_strict_method_mismatch noRegex 0 ⟨str "GET", str "/api/articles"⟩
    .done .done (fun r => (r.Exa (str "/api/articles")).Post) []
    (by decide) (by decide) (by decide) (by decide) (by decide) (by decide)
  exact ⟨h.1 7, h.2.2⟩

/-- Claim C3: a `Rou.Sub` whose criteria match: if the nested declaration
body returns normally (nothing inside matched), the attempt terminates with
`ErrNotFound` (HTTP 404) and never falls through to the siblings `rest`
declared after it; if the pattern does not match, `Sub` does nothing and
evaluation continues with the next sibling (the route result is that of the
declaration with the `Sub` statement removed). -/
theorem claim_c3_sub_containment (eng : RegexEngine) (rew : Nat) (q : Req) :
    (∀ (pre rest body : Decl) (build : Rou → Rou) (tr trb : List Ev),
      eval eng pre (MakeRou rew (some q)) = (tr, none) →
      (build (MakeRou rew (some q))).real = true →
      (build (MakeRou rew (some q))).matchPattern eng = true →
      (build (MakeRou rew (some q))).matchMethod = true →
      eval eng body (build (MakeRou rew (some q))) = (trb, none) →
      (MakeRou rew (some q)).Route eng (pre.append (.sub build body rest))
        = (tr ++ trb, some (.notFound (build (MakeRou rew (some q))).meth
            (build (MakeRou rew (some q))).path))
      ∧ RoutErr.httpStatusCode (.notFound (build (MakeRou rew (some q))).meth
          (build (MakeRou rew (some q))).path) = 404)
    ∧ (∀ (pre rest body : Decl) (build : Rou → Rou),
      (build (MakeRou rew (some q))).real = true →
      (build (MakeRou rew (some q))).onlyMethod = false →
      (build (MakeRou rew (some q))).matchPattern eng = false →
      (MakeRou rew (some q)).Route eng (pre.append (.sub build body rest))
        = (MakeRou rew (some q)).Route eng (pre.append rest)) := by
  constructor
  · intro pre rest body build tr trb hpre hreal hpat hmeth hbody
    have hm := Rou.Match_ok_of eng hpat hmeth
    refine ⟨route_root_raised eng rew (some q) _ _ _ ?_, rfl⟩
    rw [eval_append, hpre]
    simp [seqSignal, eval, hreal, hm, hbody, subFinish]
  · intro pre rest body build hreal hom hpat
    have hm := Rou.Match_strict_false eng hom hpat
    have hstmt : ∀ r2 : Rou, r2 = MakeRou rew (some q) →
        eval eng (.sub build body rest) r2 = eval eng rest r2 := by
      intro r2 hr2
      subst hr2
      simp [eval, hreal, hm]
    rw [Rou.Route, Rou.Route]
    have : eval eng (.sub (fun r => r) (pre.append (.sub build body rest)) .done)
        (MakeRou rew (some q))
        = eval eng (.sub (fun r => r) (pre.append rest) .done) (MakeRou rew (some q)) := by
      have hroot : (MakeRou rew (some q)).real = true := rfl
      have hrootm := MakeRou_Match eng rew (some q)
      simp only [eval, hroot, if_true, hrootm]
      rw [eval_append, eval_append, hstmt _ rfl]
    rw [this]

/-- Witness for claim C3 at concrete inputs: `GET /api/zzz` enters the
`Sub` under prefix `/api`, nothing inside matches, the attempt is 404; and a
`Sub` under prefix `/nope` is skipped, leaving the result of the remaining
declaration. -/
theorem claim_c3_sub_containment_witness :
    ((MakeRou 0 (some ⟨str "GET", str "/api/zzz"⟩)).Route noRegex
      ((Decl.done).append (.sub (fun r => r.Sta (str "/api"))
        (Decl.func (fun r => (r.Exa (str "/api/articles")).Get) 3 .done) .done))
      = ([] ++ [], some (.notFound (str "GET") (str "/api/zzz"))))
    ∧ ((MakeRou 0 (some ⟨str "GET", str "/api/zzz"⟩)).Route noRegex
      ((Decl.done).append (.sub (fun r => r.Sta (str "/nope"))
        (Decl.func (fun r => (r.Exa (str "/api/articles")).Get) 3 .done)
        (.func (fun r => (r.Sta (str "/api")).Get) 9 .done)))
      = (MakeRou 0 (some ⟨str "GET", str "/api/zzz"⟩)).Route noRegex
          ((Decl.done).append (.func (fun r => (r.Sta (str "/api")).Get) 9 .done))) := by
  have h := claim_c3_sub_containment noRegex 0 ⟨str "GET", str "/api/zzz"⟩
  constructor
  · exact (h.1 .done .done
      (Decl.func (fun r => (r.Exa (str "/api/articles")).Get) 3 .done)
      (fun r => r.Sta (str "/api")) [] []
      (by decide) (by decide) (by decide) (by decide) (by decide)).1
  · exact h.2 .done (.func (fun r => (r.Sta (str "/api")).Get) 9 .done)
      (Decl.func (fun r => (r.Exa (str "/api/articles")).Get) 3 .done)
      (fun r => r.Sta (str "/nope"))
      (by decide) (by decide) (by decide)

/-- Claim C4: for a method group (`Rou.Methods`): (i) inside a group
(method-only mode), a leaf whose method does not match is a silent
non-match, evaluation proceeding to the next grouped sibling; (ii) when the
group's pattern matches the path and the whole grouped body falls through,
the attempt terminates with `ErrMethodNotAllowed` (HTTP 405) only after the
body ran (its trace precedes the error); (iii) when the group's pattern does
not match the path, the group is a silent non-match and the declaration
behaves as if the group statement were absent, so a structurally unrelated
sibling declared after the group remains reachable. -/
theorem claim_c4_method_group (eng : RegexEngine) (rew : Nat) (q : Req) :
    (∀ (r : Rou) (build : Rou → Rou) (hid : Nat) (next : Decl),
      (build r).real = true →
      (build r).onlyMethod = true →
      (build r).matchMethod = false →
      eval eng (.func build hid next) r = eval eng next r)
    ∧ (∀ (pre rest body : Decl) (build : Rou → Rou) (tr trb : List Ev),
      eval eng pre (MakeRou rew (some q)) = (tr, none) →
      (build (MakeRou rew (some q))).real = true →
      (build (MakeRou rew (some q))).matchPattern eng = true →
      eval eng body (build (MakeRou rew (some q))).MethodOnly = (trb, none) →
      (MakeRou rew (some q)).Route eng (pre.append (.methods build body rest))
        = (tr ++ trb, some (.methodNotAllowed (build (MakeRou rew (some q))).meth
            (build (MakeRou rew (some q))).path))
      ∧ RoutErr.httpStatusCode (.methodNotAllowed (build (MakeRou rew (some q))).meth
          (build (MakeRou rew (some q))).path) = 405)
    ∧ (∀ (pre rest body : Decl) (build : Rou → Rou),
      (build (MakeRou rew (some q))).real = true →
      (build (MakeRou rew (some q))).matchPattern eng = false →
      (MakeRou rew (some q)).Route eng (pre.append (.methods build body rest))
        = (MakeRou rew (some q)).Route eng (pre.append rest)) := by
  refine ⟨?_, ?_, ?_⟩
  · intro r build hid next hreal hom hmeth
    have hm := Rou.Match_onlyMethod_false eng hom hmeth
    have hf := stmtFunc_miss eng _ hid hreal hm
    simp [eval, hf, seqSignal]
  · intro pre rest body build tr trb hpre hreal hpat hbody
    refine ⟨route_root_raised eng rew (some q) _ _ _ ?_, rfl⟩
    rw [eval_append, hpre]
    simp [seqSignal, eval, hreal, hpat, hbody, subFinish]
  · intro pre rest body build hreal hpat
    have hstmt : eval eng (.methods build body rest) (MakeRou rew (some q))
        = eval eng rest (MakeRou rew (some q)) := by
      simp [eval, hreal, hpat]
    rw [Rou.Route, Rou.Route]
    have : eval eng (.sub (fun r => r) (pre.append (.methods build body rest)) .done)
        (MakeRou rew (some q))
        = eval eng (.sub (fun r => r) (pre.append rest) .done) (MakeRou rew (some q)) := by
      have hroot : (MakeRou rew (some q)).real = true := rfl
      have hrootm := MakeRou_Match eng rew (some q)
      simp only [eval, hroot, if_true, hrootm]
      rw [eval_append, eval_append, hstmt]
    rw [this]

/-- Witness for claim C4: `PUT /x` against a group for `/x` holding `GET`
and `POST` leaves yields 405 after both leaves fell through silently; the
same group skipped (pattern `/y`) leaves a later unrelated sibling
reachable. -/
theorem claim_c4_method_group_witness :
    (eval noRegex
        (Decl.func (fun r => r.Get) 1 .done)
        ((Rou.Exa (MakeRou 0 (some ⟨str "PUT", str "/x"⟩)) (str "/x")).MethodOnly)
      = eval noRegex Decl.done
        ((Rou.Exa (MakeRou 0 (some ⟨str "PUT", str "/x"⟩)) (str "/x")).MethodOnly))
    ∧ ((MakeRou 0 (some ⟨str "PUT", str "/x"⟩)).Route noRegex
      ((Decl.done).append (.methods (fun r => r.Exa (str "/x"))
        (Decl.func (fun r => r.Get) 1 (Decl.func (fun r => r.Post) 2 .done)) .done))
      = ([] ++ [], some (.methodNotAllowed (str "PUT") (str "/x"))))
    ∧ ((MakeRou 0 (some ⟨str "PUT", str "/x"⟩)).Route noRegex
      ((Decl.done).append (.methods (fun r => r.Exa (str "/y"))
        (Decl.func (fun r => r.Get) 1 (Decl.func (fun r => r.Post) 2 .done))
        (.func (fun r => r.Exa (str "/x")) 9 .done)))
      = (MakeRou 0 (some ⟨str "PUT", str "/x"⟩)).Route noRegex
          ((Decl.done).append (.func (fun r => r.Exa (str "/x")) 9 .done))) := by
  have h := claim_c4_method_group noRegex 0 ⟨str "PUT", str "/x"⟩
  refine ⟨?_, ?_, ?_⟩
  · exact h.1 ((MakeRou 0 (some ⟨str "PUT", str "/x"⟩)).Exa (str "/x")).MethodOnly
      (fun r => r.Get) 1 .done (by decide) (by decide) (by decide)
  · exact (h.2.1 .done .done
      (Decl.func (fun r => r.Get) 1 (Decl.func (fun r => r.Post) 2 .done))
      (fun r => r.Exa (str "/x")) [] []
      (by decide) (by decide) (by decide) (by decide)).1
  · exact h.2.2 .done (.func (fun r => r.Exa (str "/x")) 9 .done)
      (Decl.func (fun r => r.Get) 1 (Decl.func (fun r => r.Post) 2 .done))
      (fun r => r.Exa (str "/y"))
      (by decide) (by decide)

/-- Claim C10: every builder returns a modified copy described exactly by a
functional update of the receiver: `Exa`, `Sta`, `Reg` and `Pat` set only
`pattern` and `style` and reset `onlyMethod` to `false`; `Meth` and the
per-verb shorthands set only `method`. In particular `rew`, `req` and `vis`
(and for the method builders also `pattern`, `style`, `onlyMethod`) are
unchanged by all of them, and the receiver itself is never mutated (all
operations are pure functions of the receiver). -/
theorem claim_c10_builder_frame (r : Rou) (v : Str) :
    r.Exa v = { r with pattern := v, style := .exa, onlyMethod := false }
    ∧ r.Sta v = { r with pattern := v, style := .sta, onlyMethod := false }
    ∧ r.Reg v = { r with pattern := v, style := .reg, onlyMethod := false }
    ∧ r.Pat v = { r with pattern := v, style := .pat, onlyMethod := false }
    ∧ r.Meth v = { r with method := v }
    ∧ r.Get = { r with method := str "GET" }
    ∧ r.Head = { r with method := str "HEAD" }
    ∧ r.Options = { r with method := str "OPTIONS" }
    ∧ r.Post = { r with method := str "POST" }
    ∧ r.Patch = { r with method := str "PATCH" }
    ∧ r.Put = { r with method := str "PUT" }
    ∧ r.Delete = { r with method := str "DELETE" }
    ∧ r.Connect = { r with method := str "CONNECT" }
    ∧ r.Trace = { r with method := str "TRACE" } :=
  ⟨rfl, rfl, rfl, rfl, rfl, rfl, rfl, rfl, rfl, rfl, rfl, rfl, rfl, rfl⟩

theorem matchStr_sta (eng : RegexEngine) (p s : Str) :
    Match.MatchStr .sta eng p s = if p = [] then true else matchSta p s := rfl

/-- Claim C6: prefix-style matching (`MatchSta`, dispatched through
`Match.MatchStr`) succeeds if and only if the pattern is empty, or the path
has the pattern as a literal prefix and the match does not split a path
segment: the path equals the pattern, or the pattern ends with `/`, or the
remainder of the path immediately after the prefix begins with `/`. In
particular `/api` does not match `/apiextra`. -/
theorem claim_c6_prefix_semantics (eng : RegexEngine) (p s : Str) :
    (Match.MatchStr .sta eng p s = true
      ↔ (p = [] ∨ (hasPre p s = true
        ∧ (s = p ∨ p.getLast? = some '/' ∨ (s.drop p.length).head? = some '/'))))
    ∧ Match.MatchStr .sta eng (str "/api") (str "/apiextra") = false := by
  constructor
  · by_cases hp : p = []
    · simp [matchStr_sta, hp]
    · rw [matchStr_sta, if_neg hp]
      constructor
      · intro h
        rw [matchSta, Bool.and_eq_true] at h
        obtain ⟨h1, h2⟩ := h
        refine Or.inr ⟨h1, ?_⟩
        obtain ⟨r, rfl⟩ := hasPre_exists p s h1
        simp only [Bool.or_eq_true, decide_eq_true_eq] at h2
        rcases h2 with (hlen | hlast) | hhead
        · left
          have hr0 : r.length = 0 := by
            have := List.length_append p r
            omega
          have : r = [] := List.length_eq_zero.mp hr0
          simp [this]
        · exact Or.inr (Or.inl hlast)
        · refine Or.inr (Or.inr ?_)
          rw [List.drop_left] at hhead ⊢
          match r, hhead with
          | c :: cs, hhead =>
            simp only [List.headI] at hhead
            simp [hhead]
      · intro h
        rcases h with hp2 | ⟨h1, h2⟩
        · exact absurd hp2 hp
        · rw [matchSta, Bool.and_eq_true]
          refine ⟨h1, ?_⟩
          simp only [Bool.or_eq_true, decide_eq_true_eq]
          rcases h2 with rfl | hlast | hhead
          · exact Or.inl (Or.inl rfl)
          · exact Or.inl (Or.inr hlast)
          · right
            obtain ⟨r, rfl⟩ := hasPre_exists p s h1
            rw [List.drop_left] at hhead ⊢
            match r, hhead with
            | c :: cs, hhead =>
              simp only [List.head?_cons, Option.some.injEq] at hhead
              simp [List.headI, hhead]
  · rw [matchStr_sta]
    decide

/-- Modelled from the spec (the helper `errStatusDeep` is not under `src`;
only its callers `ErrStatus` in `rout_misc.go` are): a Go error value as seen
by status extraction. `tag` distinguishes values; `status` is `some s` when
the value implements the hidden `HttpStatusCode() int` interface. `base` has
no cause (`errors.Unwrap` returns nil), `wrap` unwraps to its cause, and
`selfRef` unwraps to itself (the cyclic case the spec requires terminating
on). -/
inductive GoErr where
  | base (tag : Nat) (status : Option Nat)
  | wrap (tag : Nat) (status : Option Nat) (cause : GoErr)
  | selfRef (tag : Nat) (status : Option Nat)
deriving DecidableEq

/-- The status exposed by the value itself (`HttpStatusCode`), if any. -/
def GoErr.ownStatus : GoErr → Option Nat
  | .base _ st => st
  | .wrap _ st _ => st
  | .selfRef _ st => st

/-- `errors.Unwrap`: the declared cause, `none` at the end of the chain. -/
def GoErr.unwrap : GoErr → Option GoErr
  | .base _ _ => none
  | .wrap _ _ c => some c
  | .selfRef t st => some (.selfRef t st)

/-- The message identity written by `WriteErr` (standing in for
`err.Error()`). -/
def GoErr.tag : GoErr → Nat
  | .base t _ => t
  | .wrap t _ _ => t
  | .selfRef t _ => t

/-- Length of the cause chain up to (and including) a repeated or missing
cause. -/
def GoErr.depth : GoErr → Nat
  | .base _ _ => 1
  | .wrap _ _ c => c.depth + 1
  | .selfRef _ _ => 1

/-- The cause chain itself: the value, then the chain of its cause; a
self-referential cause contributes only itself. -/
def GoErr.chain : GoErr → List GoErr
  | .base t st => [.base t st]
  | .wrap t st c => .wrap t st c :: c.chain
  | .selfRef t st => [.selfRef t st]

/-- Modelled from the spec: the bounded walk of `errStatusDeep`, with an
explicit step budget. Per step: return the status of the first element that
exposes one; stop with 0 ("no status") at the end of the chain or when the
cause is the error itself (cycle detection). -/
def errStatusWalk : Nat → GoErr → Nat
  | 0, _ => 0
  | fuel + 1, e =>
    match e.ownStatus with
    | some s => s
    | none =>
      match e.unwrap with
      | none => 0
      | some next => if next = e then 0 else errStatusWalk fuel next

/-- Modelled from the spec: `errStatusDeep`, the walk given enough budget for
the whole chain. -/
def errStatusDeep (e : GoErr) : Nat := errStatusWalk e.depth e

/-- `ErrStatus` (`rout_misc.go`): deep status of the error, 0 when the error
is nil or exposes no status. -/
def ErrStatus : Option GoErr → Nat
  | none => 0
  | some e => errStatusDeep e

/-- `ErrStatusFallback` (`rout_misc.go`): like `ErrStatus` but falling back
on 500 (`http.StatusInternalServerError`) for a zero status. -/
def ErrStatusFallback (e : Option GoErr) : Nat :=
  if ErrStatus e = 0 then 500 else ErrStatus e

/-- The observable effect of a response writer: the status written (if any)
and the message identities written. -/
structure RewState where
  status : Option Nat
  body : List Nat
deriving DecidableEq

/-- `WriteErr` (`rout_misc.go`): nil error writes nothing; otherwise write
the status from `ErrStatusFallback` and then the error's message. -/
def WriteErr (rew : RewState) (err : Option GoErr) : RewState :=
  match err with
  | none => rew
  | some e => { status := some (ErrStatusFallback (some e)),
                body := rew.body ++ [e.tag] }

/-- The declarative reading of the spec: the status of the first element of
the cause chain that exposes one, 0 when none does. -/
def chainStatus : List GoErr → Nat
  | [] => 0
  | e :: rest =>
    match e.ownStatus with
    | some s => s
    | none => chainStatus rest

theorem goErr_wrap_ne (t : Nat) (st : Option Nat) (c : GoErr) : c ≠ GoErr.wrap t st c := by
  intro h
  have hs := congrArg sizeOf h
  simp only [GoErr.wrap.sizeOf_spec] at hs
  omega

theorem errStatusWalk_spec (e : GoErr) :
    ∀ fuel : Nat, e.depth ≤ fuel → errStatusWalk fuel e = chainStatus e.chain := by
  induction e with
  | base t st =>
    intro fuel hfuel
    match fuel, hfuel with
    | f + 1, _ =>
      cases st <;> simp [errStatusWalk, GoErr.ownStatus, GoErr.unwrap, GoErr.chain, chainStatus]
  | wrap t st c ih =>
    intro fuel hfuel
    match fuel, hfuel with
    | f + 1, hfuel =>
      cases st with
      | some s => simp [errStatusWalk, GoErr.ownStatus, GoErr.chain, chainStatus]
      | none =>
        have hne : ¬(c = GoErr.wrap t none c) := goErr_wrap_ne t none c
        have hd : c.depth ≤ f := by
          simp only [GoErr.depth] at hfuel
          omega
        simp [errStatusWalk, GoErr.ownStatus, GoErr.unwrap, hne, GoErr.chain,
          chainStatus, ih f hd]
  | selfRef t st =>
    intro fuel hfuel
    match fuel, hfuel with
    | f + 1, _ =>
      cases st <;> simp [errStatusWalk, GoErr.ownStatus, GoErr.unwrap, GoErr.chain, chainStatus]

/-- Claim C9: for every error value — including one whose cause chain is
cyclic (`selfRef`, which unwraps to itself) — status extraction terminates:
the walk's result is independent of the step budget once it covers the
chain (first conjunct). `ErrStatus` returns the status of the first element
of the cause chain that exposes `HttpStatusCode`, and 0 when none is found;
in that case `ErrStatusFallback` and `WriteErr` substitute 500. -/
theorem claim_c9_err_status_terminates (e : GoErr) (fuel : Nat)
    (hfuel : e.depth ≤ fuel) :
    errStatusWalk fuel e = ErrStatus (some e)
    ∧ ErrStatus (some e) = chainStatus e.chain
    ∧ (chainStatus e.chain = 0 →
      ErrStatusFallback (some e) = 500
      ∧ ∀ rew : RewState, (WriteErr rew (some e)).status = some 500) := by
  have h1 := errStatusWalk_spec e fuel hfuel
  have h2 := errStatusWalk_spec e e.depth (Nat.le_refl _)
  have hes : ErrStatus (some e) = chainStatus e.chain := h2
  refine ⟨by rw [h1, hes], hes, fun hzero => ?_⟩
  have hfb : ErrStatusFallback (some e) = 500 := by
    rw [ErrStatusFallback, hes, hzero]
    rfl
  exact ⟨hfb, fun rew => by simp [WriteErr, hfb]⟩

/-- Witness for claim C9: a self-referential error with no status; the walk
terminates with "no status" for any sufficient budget, and the boundary
substitutes 500. -/
theorem claim_c9_err_status_terminates_witness :
    errStatusWalk 5 (GoErr.selfRef 7 none) = ErrStatus (some (GoErr.selfRef 7 none))
    ∧ ErrStatus (some (GoErr.selfRef 7 none)) = 0
    ∧ ErrStatusFallback (some (GoErr.selfRef 7 none)) = 500
    ∧ (WriteErr ⟨none, []⟩ (some (GoErr.selfRef 7 none))).status = some 500 := by
  have h := claim_c9_err_status_terminates (GoErr.selfRef 7 none) 5 (by decide)
  exact ⟨h.1, by decide, (h.2.2 (by decide)).1, (h.2.2 (by decide)).2 ⟨none, []⟩⟩

/-- Validation of the prefix matcher model against the full table of
`TestMatch_Match_MatchSta` in `t_test.go`. -/
theorem matchSta_test_vectors :
    (matchSta (str "/") (str "") = false)
    ∧ (matchSta (str "/") (str "one") = false)
    ∧ (matchSta (str "/") (str "one/") = false)
    ∧ (matchSta (str "//") (str "") = false)
    ∧ (matchSta (str "//") (str "/") = false)
    ∧ (matchSta (str "//") (str "//") = true)
    ∧ (matchSta (str "//") (str "/one") = false)
    ∧ (matchSta (str "//") (str "/one/") = false)
    ∧ (matchSta (str "/") (str "/") = true)
    ∧ (matchSta (str "/") (str "/one") = true)
    ∧ (matchSta (str "/") (str "/one/") = true)
    ∧ (matchSta (str "/") (str "/onetwo") = true)
    ∧ (matchSta (str "/") (str "/onetwo/") = true)
    ∧ (matchSta (str "/") (str "/one/two") = true)
    ∧ (matchSta (str "/") (str "/one/two/") = true)
    ∧ (matchSta (str "/") (str "/one/twothree") = true)
    ∧ (matchSta (str "/") (str "/one/twothree/") = true)
    ∧ (matchSta (str "/one") (str "") = false)
    ∧ (matchSta (str "/one") (str "/") = false)
    ∧ (matchSta (str "/one") (str "/one") = true)
    ∧ (matchSta (str "/one") (str "/one/") = true)
    ∧ (matchSta (str "/one") (str "/onetwo") = false)
    ∧ (matchSta (str "/one") (str "/onetwo/") = false)
    ∧ (matchSta (str "/one") (str "/one/two") = true)
    ∧ (matchSta (str "/one") (str "/one/two/") = true)
    ∧ (matchSta (str "/one") (str "/one/twothree") = true)
    ∧ (matchSta (str "/one") (str "/one/twothree/") = true)
    ∧ (matchSta (str "/one/") (str "") = false)
    ∧ (matchSta (str "/one/") (str "/") = false)
    ∧ (matchSta (str "/one/") (str "/one") = false)
    ∧ (matchSta (str "/one/") (str "/one/") = true)
    ∧ (matchSta (str "/one/") (str "/onetwo") = false)
    ∧ (matchSta (str "/one/") (str "/onetwo/") = false)
    ∧ (matchSta (str "/one/") (str "/one/two") = true)
    ∧ (matchSta (str "/one/") (str "/one/two/") = true)
    ∧ (matchSta (str "/one/") (str "/one/twothree") = true)
    ∧ (matchSta (str "/one/") (str "/one/twothree/") = true)
    ∧ (matchSta (str "/one/two") (str "") = false)
    ∧ (matchSta (str "/one/two") (str "/") = false)
    ∧ (matchSta (str "/one/two") (str "/one") = false)
    ∧ (matchSta (str "/one/two") (str "/one/") = false)
    ∧ (matchSta (str "/one/two") (str "/onetwo") = false)
    ∧ (matchSta (str "/one/two") (str "/onetwo/") = false)
    ∧ (matchSta (str "/one/two") (str "/one/two") = true)
    ∧ (matchSta (str "/one/two") (str "/one/two/") = true)
    ∧ (matchSta (str "/one/two") (str "/one/twothree") = false)
    ∧ (matchSta (str "/one/two") (str "/one/twothree/") = false)
    ∧ (matchSta (str "/one/two/") (str "") = false)
    ∧ (matchSta (str "/one/two/") (str "/") = false)
    ∧ (matchSta (str "/one/two/") (str "/one") = false)
    ∧ (matchSta (str "/one/two/") (str "/one/") = false)
    ∧ (matchSta (str "/one/two/") (str "/one/two") = false)
    ∧ (matchSta (str "/one/two/") (str "/one/two/") = true)
    ∧ (matchSta (str "/one/two/") (str "/one/twothree") = false)
    ∧ (matchSta (str "/one/two/") (str "/one/twothree/") = false) := by
  decide

/-- Validation of the exact matcher model against `TestMatch_Match_MatchExa`
(through the dispatcher, which handles the empty pattern). -/
theorem matchExa_test_vectors :
    (Match.MatchStr .exa noRegex (str "") (str "") = true)
    ∧ (Match.MatchStr .exa noRegex (str "") (str "/one/two") = true)
    ∧ (Match.MatchStr .exa noRegex (str "/") (str "/") = true)
    ∧ (Match.MatchStr .exa noRegex (str "/one") (str "/one") = true)
    ∧ (Match.MatchStr .exa noRegex (str "/one/two") (str "/one/two") = true)
    ∧ (Match.MatchStr .exa noRegex (str "/") (str "") = false)
    ∧ (Match.MatchStr .exa noRegex (str "/one") (str "") = false)
    ∧ (Match.MatchStr .exa noRegex (str "/") (str "/one") = false)
    ∧ (Match.MatchStr .exa noRegex (str "/one") (str "/") = false)
    ∧ (Match.MatchStr .exa noRegex (str "/one/two") (str "/one") = false) := by
  decide

/-- Validation of the templated matcher glue (`Pat.Parse` composed with
`Pat.Match`) against `TestMatch_Match_MatchPat`. -/
theorem matchPat_test_vectors :
    (Match.MatchStr .pat noRegex (str "") (str "/one") = true)
    ∧ (Match.MatchStr .pat noRegex (str "\x7b\x7d") (str "") = false)
    ∧ (Match.MatchStr .pat noRegex (str "\x7b\x7d") (str "/") = false)
    ∧ (Match.MatchStr .pat noRegex (str "\x7b\x7d") (str "one") = true)
    ∧ (Match.MatchStr .pat noRegex (str "\x7b\x7d") (str "one/") = false)
    ∧ (Match.MatchStr .pat noRegex (str "\x7b\x7d") (str "/one") = false)
    ∧ (Match.MatchStr .pat noRegex (str "/") (str "/") = true)
    ∧ (Match.MatchStr .pat noRegex (str "/") (str "/one") = false)
    ∧ (Match.MatchStr .pat noRegex (str "/\x7b\x7d") (str "/one") = true)
    ∧ (Match.MatchStr .pat noRegex (str "/\x7b\x7d") (str "/one/") = false)
    ∧ (Match.MatchStr .pat noRegex (str "/\x7b\x7d") (str "/one/two") = false)
    ∧ (Match.MatchStr .pat noRegex (str "/one/\x7b\x7d") (str "/one/two") = true)
    ∧ (Match.MatchStr .pat noRegex (str "/one/\x7b\x7d") (str "/one/two/") = false)
    ∧ (Match.MatchStr .pat noRegex (str "/\x7b\x7d/\x7b\x7d") (str "/one/two") = true)
    ∧ (Match.MatchStr .pat noRegex (str "/\x7b\x7d/\x7b\x7d") (str "/one/two/") = false) := by
  decide

/-- Validation of `Pat.Match` and `Pat.Submatch` against a representative
part of `TestPat_Match` and `TestPat_Submatch`. -/
theorem pat_match_test_vectors :
    (Pat.Match [] (str "") = true)
    ∧ (Pat.Match [[]] (str "") = false)
    ∧ (Pat.Match [] (str "/") = false)
    ∧ (Pat.Match [str "/", []] (str "/one") = true)
    ∧ (Pat.Match [str "/", [], []] (str "/one") = false)
    ∧ (Pat.Match [[], str "/"] (str "/one") = false)
    ∧ (Pat.Match [str "/", str "o", str "n", str "e"] (str "/one") = true)
    ∧ (Pat.Match [str "/", [], str "/", []] (str "/one/two") = true)
    ∧ (Pat.Match [str "/one/", []] (str "/one/two") = true)
    ∧ (Pat.Match [str "/one/two_", []] (str "/one/two_three.four") = true)
    ∧ (Pat.Submatch [[]] (str "one") = some [str "one"])
    ∧ (Pat.Submatch [str "/", [], str "/", []] (str "/one/two")
        = some [str "one", str "two"])
    ∧ (Pat.Submatch [str "/", [], str "/two"] (str "/one/two") = some [str "one"])
    ∧ (Pat.Submatch [str "/", [], str "/", [], str "/"] (str "/one/two") = none)
    ∧ (Pat.Submatch [str "/one/two_", []] (str "/one/two_three.four")
        = some [str "three.four"]) := by
  decide

/-- Validation of `Pat.Parse` against a representative part of
`TestPat_Parse`, including the capture-ceiling error with its count. -/
theorem pat_parse_test_vectors :
    ((Pat.Parse (str "?")).isOk = false)
    ∧ ((Pat.Parse (str "#")).isOk = false)
    ∧ ((Pat.Parse (str "\x7b")).isOk = false)
    ∧ ((Pat.Parse (str "\x7d")).isOk = false)
    ∧ ((Pat.Parse (str "\x7b\x7b\x7d\x7d")).isOk = false)
    ∧ ((Pat.Parse (str "\x7b?\x7d")).isOk = false)
    ∧ ((Pat.Parse (str "\x7b\x7d\x7d")).isOk = false)
    ∧ ((Pat.Parse (str "\x7b\x7d\x7b")).isOk = false)
    ∧ (Pat.Parse (str "\x7b\x7d\x7b\x7d\x7b\x7d\x7b\x7d\x7b\x7d\x7b\x7d\x7b\x7d\x7b\x7d\x7b\x7d")
        = .error (.tooMany
          (str "\x7b\x7d\x7b\x7d\x7b\x7d\x7b\x7d\x7b\x7d\x7b\x7d\x7b\x7d\x7b\x7d\x7b\x7d") 9))
    ∧ (Pat.Parse (str "") = .ok [])
    ∧ (Pat.Parse (str "/") = .ok [str "/"])
    ∧ (Pat.Parse (str "one two three") = .ok [str "one two three"])
    ∧ (Pat.Parse (str "\x7b\x7d") = .ok [[]])
    ∧ (Pat.Parse (str "\x7bone\x7d") = .ok [[]])
    ∧ (Pat.Parse (str "/\x7b\x7d") = .ok [str "/", []])
    ∧ (Pat.Parse (str "\x7b\x7d/") = .ok [[], str "/"])
    ∧ (Pat.Parse (str "\x7b\x7d\x7b\x7d") = .ok [[], []])
    ∧ (Pat.Parse (str "/\x7bone\x7d/\x7btwo\x7d") = .ok [str "/", [], str "/", []]) := by
  decide

/-- Validation of `Pat.Reg` against the full table of `TestPat_Reg`. -/
theorem pat_reg_test_vectors :
    (Pat.Reg [] = str "^$")
    ∧ (Pat.Reg [str "^$"] = str "^\\^\\$$")
    ∧ (Pat.Reg [str "/"] = str "^/$")
    ∧ (Pat.Reg [str "one"] = str "^one$")
    ∧ (Pat.Reg [str "."] = str "^\\.$")
    ∧ (Pat.Reg [str "..."] = str "^\\.\\.\\.$")
    ∧ (Pat.Reg [str ".", str "/", str ".", str "/", str "."] = str "^\\./\\./\\.$")
    ∧ (Pat.Reg [str ".", [], str ".", [], str "."]
        = str "^\\.([^/?#]+)\\.([^/?#]+)\\.$")
    ∧ (Pat.Reg [[]] = str "^([^/?#]+)$")
    ∧ (Pat.Reg [str "/one/", [], str "/two/", []]
        = str "^/one/([^/?#]+)/two/([^/?#]+)$") := by
  decide
